import Mathlib

/-!
Shallow embedding of the Load Out List extraction pipeline implemented in
the repository file scripts/pdf-serial-reader/extract_serials.py, together
with proofs about the extraction logic.

Python strings are modelled as lists of characters (`Str`).  Python's
regular expressions are modelled by bespoke backtracking matchers built
from a small set of combinators (`chC`, `starC`, `lazyStarC`, `litC`)
whose alternative ordering mirrors the leftmost, greedy/lazy,
first-alternative-first semantics of the `re` module.  The character
classes are the ASCII approximations of Python's Unicode classes,
extended with the two non-ASCII letters that actually occur in this
document family (the Aring of "VÅR ENERGI").  Exceptions are modelled
with `Option`: a `none` result of a table-extraction function stands for
an uncaught Python exception (in the source, an `IndexError` raised by
indexing a data row shorter than the header row), which the caller
`process_pdf` catches.
-/

set_option maxRecDepth 4000

/-- Model of a Python string: a list of characters. -/
abbrev Str := List Char

/-- Python whitespace test, restricted to the ASCII whitespace characters
recognised by both `str.strip()` and the regex class backslash-s. -/
def isPySpace (c : Char) : Bool :=
  c == ' ' || c == '\t' || c == '\n' || c == '\x0b' || c == '\x0c' || c == '\r'

/-- Python regex word-character class (backslash-w): ASCII alphanumerics and
underscore, extended with the two non-ASCII letters used by this document
family. -/
def isWordChar (c : Char) : Bool :=
  c.isAlphanum || c == '_' || c == 'Å' || c == 'å'

/-- The character class of the pattern fragments [\w_\-] and [\w\-]. -/
def isWordDash (c : Char) : Bool :=
  isWordChar c || c == '-'

/-- The character class of the pattern fragments [\w\s\-] and [\w_\-\s]. -/
def isWordDashSpace (c : Char) : Bool :=
  isWordDash c || isPySpace c

/-- Python regex digit class (backslash-d), ASCII digits. -/
def isDigitC (c : Char) : Bool :=
  c.isDigit

/-- The character class of the pattern fragment [\d_\-]. -/
def isDigitDash (c : Char) : Bool :=
  c.isDigit || c == '_' || c == '-'

/-- Python str.strip with default arguments: drop leading and trailing
whitespace. -/
def strip (s : Str) : Str :=
  ((s.dropWhile isPySpace).reverse.dropWhile isPySpace).reverse

/-- Python str.lower, character by character. -/
def lowerStr (s : Str) : Str :=
  s.map Char.toLower

/-- Python str.split on a single newline separator: no collapsing, empty
pieces are kept, the empty string splits to one empty piece. -/
def splitOnNl : Str → List Str
  | [] => [[]]
  | c :: rest =>
    if c = '\n' then [] :: splitOnNl rest
    else
      match splitOnNl rest with
      | [] => [[c]]
      | p :: ps => (c :: p) :: ps

/-- Join a list of lines with single newline separators (inverse of
`splitOnNl` on newline-free pieces); used to state properties about
multi-line table cells. -/
def joinNl : List Str → Str
  | [] => []
  | [x] => x
  | x :: y :: ys => x ++ '\n' :: joinNl (y :: ys)

/-- Does the needle occur as a prefix of the haystack (Python
str.startswith)? -/
def startsWithStr : Str → Str → Bool
  | [], _ => true
  | _ :: _, [] => false
  | a :: as, b :: bs => a == b && startsWithStr as bs

/-- Python substring containment (the operator "needle in haystack"). -/
def hasSubstr (needle : Str) : Str → Bool
  | [] => startsWithStr needle []
  | c :: rest => startsWithStr needle (c :: rest) || hasSubstr needle rest

/-- Python join with a single-space separator, as in
" ".join(str(cell or "") for cell in header_row). -/
def joinSpace : List Str → Str
  | [] => []
  | [x] => x
  | x :: y :: ys => x ++ ' ' :: joinSpace (y :: ys)

/-! ## Backtracking regex combinators

Each combinator matches one regex construct at the head of the input and
passes the remaining suffix to a continuation; `Option.orElse` encodes
the backtracking priority order of Python's `re` engine (greedy
quantifiers try longer matches first, lazy quantifiers shorter ones,
alternatives are tried left to right). -/

/-- Match one character of class p. -/
def chC (p : Char → Bool) (s : Str) (k : Str → Option Str) : Option Str :=
  match s with
  | [] => none
  | c :: rest => if p c then k rest else none

/-- Greedy star over a one-character class: longest repetition first. -/
def starC (p : Char → Bool) (s : Str) (k : Str → Option Str) : Option Str :=
  match s with
  | [] => k []
  | c :: rest => (if p c then starC p rest k else none) <|> k (c :: rest)

/-- Lazy star over a one-character class: shortest repetition first. -/
def lazyStarC (p : Char → Bool) (s : Str) (k : Str → Option Str) : Option Str :=
  match s with
  | [] => k []
  | c :: rest => k (c :: rest) <|> (if p c then lazyStarC p rest k else none)

/-- Greedy plus over a one-character class. -/
def plusC (p : Char → Bool) (s : Str) (k : Str → Option Str) : Option Str :=
  chC p s (fun s1 => starC p s1 k)

/-- Match a literal string. -/
def litC (lit : Str) (s : Str) (k : Str → Option Str) : Option Str :=
  match lit with
  | [] => k s
  | c :: lrest =>
    match s with
    | [] => none
    | a :: arest => if a == c then litC lrest arest k else none

/-- Greedy optional single character (the pattern fragment H?). -/
def optCh (c : Char) (s : Str) (k : Str → Option Str) : Option Str :=
  (chC (· == c) s k) <|> k s

/-- Match exactly n characters of the digit class (the fragments
backslash-d{8}, {9}, {4}). -/
def digitsN : Nat → Str → Option Str
  | 0, s => some s
  | _ + 1, [] => none
  | n + 1, c :: rest => if isDigitC c then digitsN n rest else none

/-! ## Data model -/

/-- One extracted row-level item, prior to stamping with document
metadata (the dicts built by both extractors in extract_serials.py). -/
structure ExtractedItem where
  material_num : Str
  description : Str
  serial : Str
  qty : Str
deriving DecidableEq, Repr

/-- Result of extract_general_info: document-level metadata. -/
structure GenInfo where
  customer : Str
  well_name : Str
  load_out_date : Str
deriving DecidableEq, Repr

/-- Final output record built by process_pdf for each extracted item. -/
structure SerialRecord where
  filename : Str
  customer : Str
  well_name : Str
  load_out_date : Str
  material_num : Str
  description : Str
  serial_trace : Str
  qty : Str
  extracted_at : Str
deriving DecidableEq, Repr

/-- A table cell as returned by pdfplumber: either absent (None) or a
string. -/
abbrev Cell := Option Str

/-- A table row. -/
abbrev TableRow := List Cell

/-- A detected table: list of rows, first row the header. -/
abbrev Table := List TableRow

/-- Python str(cell or ""): None becomes the empty string. -/
def cellStr (c : Cell) : Str :=
  match c with
  | none => []
  | some s => s

/-! ## String literals appearing in extract_serials.py -/

def serialLit : Str := "Serial".data
def traceLit : Str := "Trace".data
def materialLit : Str := "Material".data
def descriptionLit : Str := "Description".data
def qtyLit : Str := "Qty".data
def noneTokLit : Str := "none".data
def naTokLit : Str := "n/a".data
def matHdrLit : Str := "Material #".data
def owsDashLit : Str := "OWS-".data
def loadOutListLit : Str := "LOAD OUT LIST".data
def loadOutVerifLit : Str := "Load Out Verif".data
def salesLit : Str := "Sales Order/Planning Order Number".data
def shippingLit : Str := "Shipping".data
def loadOutDateLit : Str := "Load Out Date".data
def energiLit : Str := "ENERGI".data
def energiAsaLit : Str := "ENERGIASA".data
def energiSpLit : Str := "ENERGI ".data
def asaLit : Str := "ASA".data
def ebusLit : Str := "EBUS".data
def eessaLit : Str := "EESSA".data

/-! ## Table-based record extractor (extract_loadout_serials_from_table) -/

/-- Split a multi-line cell: strip every newline-separated piece and drop
the pieces that strip to nothing, as in the list comprehension
[s.strip() for s in serial_cell.split(newline) if s.strip()]. -/
def cleanSplit (cell : Str) : List Str :=
  (splitOnNl cell).filterMap fun part =>
    let t := strip part
    if t = [] then none else some t

/-- The serial-token skip test of the pairing loop:
if not serial or serial.lower() in ("none", "", "n/a"). -/
def serial_skip (serial : Str) : Bool :=
  if serial = [] then true
  else if lowerStr serial = noneTokLit then true
  else if lowerStr serial = [] then true
  else if lowerStr serial = naTokLit then true
  else false

/-- The positional fallback selection
xs[i] if i < len(xs) else (xs[0] if xs else ""). -/
def fb_nth (xs : List Str) (i : Nat) : Str :=
  if i < xs.length then xs.getD i []
  else
    match xs with
    | [] => []
    | m :: _ => m

/-- The item appended for the serial at pairing index i. -/
def item_for (materials descriptions : List Str) (qty_cell : Str) (i : Nat)
    (serial : Str) : ExtractedItem :=
  { material_num := fb_nth materials i
    description := fb_nth descriptions i
    serial := serial
    qty := qty_cell }

/-- The pairing loop for i, serial in enumerate(serials), starting at
pairing index i. -/
def pair_items (materials descriptions : List Str) (qty_cell : Str) :
    Nat → List Str → List ExtractedItem
  | _, [] => []
  | i, serial :: rest =>
    (if serial_skip serial then []
     else [item_for materials descriptions qty_cell i serial])
      ++ pair_items materials descriptions qty_cell (i + 1) rest

/-- Semantic column indices found in a header row. -/
structure Cols where
  serial_col : Option Nat
  material_col : Option Nat
  desc_col : Option Nat
  qty_col : Option Nat
deriving DecidableEq, Repr

def init_cols : Cols :=
  { serial_col := none, material_col := none, desc_col := none, qty_col := none }

/-- Header-cell classification loop (for idx, cell in
enumerate(header_row), with the if/elif keyword chain). -/
def classify_cols (idx : Nat) (cells : TableRow) (acc : Cols) : Cols :=
  match cells with
  | [] => acc
  | c :: rest =>
    let t := strip (cellStr c)
    let acc1 :=
      if hasSubstr serialLit t || hasSubstr traceLit t then
        { acc with serial_col := some idx }
      else if hasSubstr materialLit t then { acc with material_col := some idx }
      else if hasSubstr descriptionLit t then { acc with desc_col := some idx }
      else if hasSubstr qtyLit t then { acc with qty_col := some idx }
      else acc
    classify_cols (idx + 1) rest acc1

/-- The entirely-blank-row test
all(cell is None or str(cell).strip() == "" for cell in row). -/
def blank_row (row : TableRow) : Bool :=
  row.all fun c =>
    match c with
    | none => true
    | some s => strip s = []

/-- Read the cell of an optional column: the empty string when the column
was not found, a `none` result when the Python indexing would raise
IndexError. -/
def optColCell (row : TableRow) (col : Option Nat) : Option Str :=
  match col with
  | none => some []
  | some j => (row.get? j).map (fun c => strip (cellStr c))

/-- Process one data row of a qualifying table; `none` models an
IndexError escaping the extractor. -/
def row_record_items (cols : Cols) (sc : Nat) (row : TableRow) :
    Option (List ExtractedItem) :=
  if row.isEmpty || blank_row row then some []
  else
    match row.get? sc with
    | none => none
    | some scell =>
      let serial_cell := strip (cellStr scell)
      match optColCell row cols.material_col with
      | none => none
      | some material_cell =>
        match optColCell row cols.desc_col with
        | none => none
        | some desc_cell =>
          match optColCell row cols.qty_col with
          | none => none
          | some qty_cell =>
            some (pair_items (cleanSplit material_cell) (cleanSplit desc_cell)
              qty_cell 0 (cleanSplit serial_cell))

/-- Process the data rows of a qualifying table in order. -/
def rows_items (cols : Cols) (sc : Nat) : List TableRow → Option (List ExtractedItem)
  | [] => some []
  | row :: rest =>
    match row_record_items cols sc row with
    | none => none
    | some items => (rows_items cols sc rest).map (fun more => items ++ more)

/-- Process one detected table: skipped tables contribute `some []`
(the continue statements of the source). -/
def table_items (table : Table) : Option (List ExtractedItem) :=
  match table with
  | [] => some []
  | header_row :: data_rows =>
    if (header_row :: data_rows).length < 2 then some []
    else
      let header_text := joinSpace (header_row.map cellStr)
      if hasSubstr serialLit header_text || hasSubstr traceLit header_text then
        let cols := classify_cols 0 header_row init_cols
        match cols.serial_col with
        | none => some []
        | some sc => rows_items cols sc data_rows
      else some []

/-- extract_loadout_serials_from_table, as a function of the page's
detected tables (page.extract_tables() in the source); `none` models an
exception escaping to process_pdf. -/
def extract_loadout_serials_from_table : List Table → Option (List ExtractedItem)
  | [] => some []
  | t :: rest =>
    match table_items t with
    | none => none
    | some items =>
      (extract_loadout_serials_from_table rest).map (fun more => items ++ more)

/-! ## Text-fallback record extractor (extract_loadout_serials_from_text) -/

/-- First alternative of the serial pattern (OWS-[\w\-]+): the literal
OWS- followed by a maximal nonempty run of word/hyphen characters.
Returns the matched text and the suffix after it. -/
def owsAt (s : Str) : Option (Str × Str) :=
  if startsWithStr owsDashLit s then
    let rest := s.drop 4
    let run := rest.takeWhile isWordDash
    if run.isEmpty then none else some (owsDashLit ++ run, rest.drop run.length)
  else none

/-- Second alternative of the serial pattern (word-bounded 8-digit run):
exactly 8 digits whose following character, if any, is not a word
character.  The left word boundary is checked by the caller. -/
def digits8At (s : Str) : Option (Str × Str) :=
  let ds := s.take 8
  if ds.length = 8 && ds.all isDigitC then
    match s.drop 8 with
    | [] => some (ds, [])
    | c :: rest => if isWordChar c then none else some (ds, c :: rest)
  else none

/-- Try the serial pattern (OWS-[\w\-]+|word-bounded 8 digits) at the
current position; prevW says whether the preceding character is a word
character (for the left word boundary of the digit alternative). -/
def serialAt (prevW : Bool) (s : Str) : Option (Str × Str) :=
  match owsAt s with
  | some r => some r
  | none => if prevW then none else digits8At s

/-- Leftmost search for the serial pattern, tracking position and the
word-character status of the previous character.  Returns the match
start index, the matched text, and the suffix after the match. -/
def searchSerialAux (start : Nat) (prevW : Bool) : Str → Option (Nat × Str × Str)
  | [] => none
  | c :: rest =>
    match serialAt prevW (c :: rest) with
    | some (g, after) => some (start, g, after)
    | none => searchSerialAux (start + 1) (isWordChar c) rest

/-- serial_re.search(line) for
serial_re = re.compile(r"(OWS-[\w\-]+|\b\d{8}\b)"). -/
def searchSerial (s : Str) : Option (Nat × Str × Str) :=
  searchSerialAux 0 false s

/-- The tail \s+(.+) of the material pattern: at least one whitespace
character, then at least one non-newline character; returns the greedy
group-2 text. -/
def matTail (s : Str) : Option Str :=
  plusC isPySpace s fun s2 =>
    match s2 with
    | [] => none
    | c :: _ => if c = '\n' then none else some (s2.takeWhile (fun d => !(d = '\n')))

/-- Greedy backtracking for the alternative \d{6,}: try the longest
leading digit run first, down to 6 digits. -/
def tryDigitLen (before : Str) : Nat → Option (Str × Str)
  | 0 => none
  | k + 1 =>
    if k + 1 < 6 then none
    else
      match matTail (before.drop (k + 1)) with
      | some g2 => some (before.take (k + 1), g2)
      | none => tryDigitLen before k

/-- Greedy backtracking for the alternative [A-Z]{2,5}: try the longest
available run first (at most 5), down to 2 characters. -/
def tryUpperLen (before : Str) : Nat → Option (Str × Str)
  | 0 => none
  | k + 1 =>
    if k + 1 < 2 then none
    else
      match matTail (before.drop (k + 1)) with
      | some g2 => some (before.take (k + 1), g2)
      | none => tryUpperLen before k

/-- re.match(r"^(\d{9}|\d{6,}|[A-Z]{2,5})\s+(.+)", before_serial):
returns (group 1, group 2) on success; the three alternatives are tried
in pattern order. -/
def matAt (before : Str) : Option (Str × Str) :=
  (match digitsN 9 before with
   | some rest => (matTail rest).map (fun g2 => (before.take 9, g2))
   | none => none)
  <|> tryDigitLen before (before.takeWhile isDigitC).length
  <|> tryUpperLen before (min 5 (before.takeWhile Char.isUpper).length)

/-- Process one physical line of the LOAD OUT LIST section; `none` when
the loop body hits a continue. -/
def line_item (line0 : Str) : Option ExtractedItem :=
  let line := strip line0
  if line = [] || hasSubstr matHdrLit line || hasSubstr descriptionLit line then
    none
  else
    match searchSerial line with
    | none => none
    | some (start, serial, after0) =>
      let before_serial := strip (line.take start)
      let after_serial := strip after0
      let md :=
        match matAt before_serial with
        | some (m, d) => (m, strip d)
        | none => ([], before_serial)
      let qty := after_serial.takeWhile isDigitC
      some { material_num := md.1, description := md.2, serial := serial, qty := qty }

/-- The lazy group (.+?) followed by (?:Load Out Verif|$) under DOTALL:
consume at least one character, stopping at the earliest position where
the literal Load Out Verif starts, or at the end of the text, or just
before a single trailing newline (Python's dollar anchor). -/
def sectionBody : Str → Option Str
  | [] => none
  | c :: rest =>
    if startsWithStr loadOutVerifLit rest || rest.isEmpty || rest = ['\n'] then
      some [c]
    else (sectionBody rest).map (fun g => c :: g)

/-- Try the full section pattern LOAD OUT LIST\s*\n(.+?)(?:Load Out Verif|$)
at the current position, returning group 1. -/
def loadoutSectionAt (s : Str) : Option Str :=
  litC loadOutListLit s fun s1 =>
  starC isPySpace s1 fun s2 =>
  chC (· == '\n') s2 fun s3 =>
  sectionBody s3

/-- Leftmost search for the section pattern. -/
def searchLoadoutSection : Str → Option Str
  | [] => none
  | c :: rest =>
    match loadoutSectionAt (c :: rest) with
    | some g => some g
    | none => searchLoadoutSection rest

/-- extract_loadout_serials_from_text(page_text). -/
def extract_loadout_serials_from_text (page_text : Str) : List ExtractedItem :=
  match searchLoadoutSection page_text with
  | none => []
  | some sect => (splitOnNl sect).filterMap line_item

/-! ## Metadata extractor (extract_general_info) -/

/-- re.sub(r"\s+", " ", s): replace every maximal whitespace run with a
single space; the flag records whether the previous character belonged
to a run already rewritten. -/
def collapseWsAux : Bool → Str → Str
  | _, [] => []
  | inRun, c :: rest =>
    if isPySpace c then
      (if inRun then [] else [' ']) ++ collapseWsAux true rest
    else c :: collapseWsAux false rest

def collapseWs (s : Str) : Str :=
  collapseWsAux false s

/-- re.sub(r"ENERGI(?=ASA)", "ENERGI ", s): insert a space after each
occurrence of ENERGI that is directly followed by ASA; scanning resumes
after the inserted text (the lookahead is not consumed).  The fuel is
the input length, which bounds the number of rewrite steps since every
step consumes at least one character. -/
def subEnergiAux : Nat → Str → Str
  | 0, s => s
  | _ + 1, [] => []
  | fuel + 1, c :: rest =>
    if startsWithStr energiAsaLit (c :: rest) then
      energiSpLit ++ subEnergiAux fuel (rest.drop 5)
    else c :: subEnergiAux fuel rest

def subEnergi (s : Str) : Str :=
  subEnergiAux s.length s

/-- Try the customer pattern (V[ÅA]R\s*ENERGI[\w\s\-]*?)\s{2,}(\S+) at
the current position.  On success, returns the suffix beginning at
end(1), which determines both the group-1 text and the remainder that
the source slices off with next_stripped[cust_match.end(1):]. -/
def custAt (s : Str) : Option Str :=
  chC (· == 'V') s fun s1 =>
  chC (fun c => c == 'Å' || c == 'A') s1 fun s2 =>
  chC (· == 'R') s2 fun s3 =>
  starC isPySpace s3 fun s4 =>
  litC energiLit s4 fun s5 =>
  lazyStarC isWordDashSpace s5 fun s6 =>
  chC isPySpace s6 fun s7 =>
  chC isPySpace s7 fun s8 =>
  starC isPySpace s8 fun s9 =>
  chC (fun c => !isPySpace c) s9 fun _ =>
  some s6

/-- Leftmost search for the customer pattern: returns (group 1, suffix
after group 1). -/
def searchCust : Str → Option (Str × Str)
  | [] => none
  | c :: rest =>
    match custAt (c :: rest) with
    | some s6 => some ((c :: rest).take ((c :: rest).length - s6.length), s6)
    | none => searchCust rest

/-- Try the layout-pass well pattern
EESSA[\w_\-]+\s*[\w_\-\s]*\d+[\w\-\s]*H? at the current position,
returning the suffix after the match. -/
def wellBodyAt (s : Str) : Option Str :=
  litC eessaLit s fun s1 =>
  plusC isWordDash s1 fun s2 =>
  starC isPySpace s2 fun s3 =>
  starC isWordDashSpace s3 fun s4 =>
  plusC isDigitC s4 fun s5 =>
  starC isWordDashSpace s5 fun s6 =>
  optCh 'H' s6 some

/-- Leftmost search for the layout-pass well pattern: returns group 1. -/
def searchWell : Str → Option Str
  | [] => none
  | c :: rest =>
    match wellBodyAt (c :: rest) with
    | some r => some ((c :: rest).take ((c :: rest).length - r.length))
    | none => searchWell rest

/-- Try the raw-text well pattern
EESSA[\w_\-]+\s*[\w_\-]*\s*\d+[\w\-\s]*H? at the current position,
returning the suffix after the match. -/
def wellBodyRawAt (s : Str) : Option Str :=
  litC eessaLit s fun s1 =>
  plusC isWordDash s1 fun s2 =>
  starC isPySpace s2 fun s3 =>
  starC isWordDash s3 fun s4 =>
  starC isPySpace s4 fun s5 =>
  plusC isDigitC s5 fun s6 =>
  starC isWordDashSpace s6 fun s7 =>
  optCh 'H' s7 some

/-- Leftmost search for the raw-text well pattern: returns group 1. -/
def searchWellRaw : Str → Option Str
  | [] => none
  | c :: rest =>
    match wellBodyRawAt (c :: rest) with
    | some r => some ((c :: rest).take ((c :: rest).length - r.length))
    | none => searchWellRaw rest

/-- Try the raw-text customer pattern
(V[ÅA]R\s*ENERGI[\w\s\-]*?(?:EBUS|ASA\S*)) at the current position,
returning the suffix after the match. -/
def custRawAt (s : Str) : Option Str :=
  chC (· == 'V') s fun s1 =>
  chC (fun c => c == 'Å' || c == 'A') s1 fun s2 =>
  chC (· == 'R') s2 fun s3 =>
  starC isPySpace s3 fun s4 =>
  litC energiLit s4 fun s5 =>
  lazyStarC isWordDashSpace s5 fun s6 =>
  ((litC ebusLit s6 some)
   <|> (litC asaLit s6 fun s7 => starC (fun c => !isPySpace c) s7 some))

/-- Leftmost search for the raw-text customer pattern: returns group 1. -/
def searchCustRaw : Str → Option Str
  | [] => none
  | c :: rest =>
    match custRawAt (c :: rest) with
    | some r => some ((c :: rest).take ((c :: rest).length - r.length))
    | none => searchCustRaw rest

/-- The tail \s+\w+\s+\d{4} of the date pattern. -/
def dateTail (s : Str) : Option Str :=
  plusC isPySpace s fun s3 =>
  plusC isWordChar s3 fun s4 =>
  plusC isPySpace s4 fun s5 =>
  digitsN 4 s5

/-- Try the date pattern \d{1,2}\s+\w+\s+\d{4} at the current position
(the greedy {1,2} tries two digits first), returning the suffix after
the match. -/
def dateAt (s : Str) : Option Str :=
  chC isDigitC s fun s1 =>
  ((chC isDigitC s1 fun s2 => dateTail s2) <|> dateTail s1)

/-- Leftmost search for the date pattern: returns the matched text. -/
def searchDate : Str → Option Str
  | [] => none
  | c :: rest =>
    match dateAt (c :: rest) with
    | some r => some ((c :: rest).take ((c :: rest).length - r.length))
    | none => searchDate rest

/-- Greedy star over the group (?:\s+[\d_\-]+[\w\-]*)* of the well-name
cleaning pattern; every iteration consumes at least two characters, so
the input length is enough fuel. -/
def cleanIterStar : Nat → Str → (Str → Option Str) → Option Str
  | 0, s, k => k s
  | fuel + 1, s, k =>
    (plusC isPySpace s fun s1 =>
     plusC isDigitDash s1 fun s2 =>
     starC isWordDash s2 fun s3 =>
     cleanIterStar fuel s3 k)
    <|> k s

/-- Greedy optional group (?:\s+H)?. -/
def optSpH (s : Str) (k : Str → Option Str) : Option Str :=
  (plusC isPySpace s fun s1 => chC (· == 'H') s1 k) <|> k s

/-- Try the cleaning pattern [\w_\-]+(?:\s+[\d_\-]+[\w\-]*)*(?:\s+H)? at
the start of the string (re.match), returning the suffix after the
match. -/
def cleanWellAt (w : Str) : Option Str :=
  plusC isWordDash w fun s1 =>
  cleanIterStar s1.length s1 fun s2 =>
  optSpH s2 some

/-- The anchored cleaning match: group 1 on success. -/
def cleanWell (w : Str) : Option Str :=
  match cleanWellAt w with
  | some rest => some (w.take (w.length - rest.length))
  | none => none

/-- Inner loop over lines[i+1:i+3] of the Sales Order branch.  Blank or
"Shipping" lines are skipped; the first surviving line is inspected and
the loop then breaks whether or not the customer regex matched. -/
def inspect_next (cand : List Str) (info : GenInfo) : GenInfo :=
  match cand with
  | [] => info
  | next_line :: rest =>
    let ns := strip next_line
    if ns = [] || hasSubstr shippingLit ns then inspect_next rest info
    else
      match searchCust ns with
      | none => info
      | some (g1, s6) =>
        let info1 := { info with customer := strip (collapseWs g1) }
        let remainder := strip s6
        match searchWell remainder with
        | none => info1
        | some gw => { info1 with well_name := strip gw }

/-- Inner loop over lines[i+1:i+3] of the Load Out Date branch: the
first line where the date pattern matches supplies the date, otherwise
the old value is kept. -/
def date_scan : List Str → Str → Str
  | [], d => d
  | l :: rest, d =>
    match searchDate l with
    | some m => m
    | none => date_scan rest d

/-- The main scan of extract_general_info over the layout lines, with
the running index needed for the lines[i+1:i+3] slices. -/
def info_loop (lines : List Str) : Nat → List Str → GenInfo → GenInfo
  | _, [], info => info
  | i, line :: rest, info =>
    let stripped := strip line
    let info1 :=
      if hasSubstr salesLit stripped then
        inspect_next ((lines.drop (i + 1)).take 2) info
      else info
    let info2 :=
      if hasSubstr loadOutDateLit stripped then
        { info1 with
            load_out_date := date_scan ((lines.drop (i + 1)).take 2) info1.load_out_date }
      else info1
    info_loop lines (i + 1) rest info2

/-- Raw-text customer fallback loop: the first line containing ENERGI
together with ASA or EBUS on which the raw customer pattern matches. -/
def cust_fallback : List Str → Option Str
  | [] => none
  | line :: rest =>
    if hasSubstr energiLit line && (hasSubstr asaLit line || hasSubstr ebusLit line) then
      match searchCustRaw line with
      | some g => some (strip (collapseWs g))
      | none => cust_fallback rest
    else cust_fallback rest

/-- Raw-text well-name fallback loop: the first line on which the raw
well pattern matches. -/
def well_fallback : List Str → Option Str
  | [] => none
  | line :: rest =>
    match searchWellRaw line with
    | some g => some (strip g)
    | none => well_fallback rest

/-- A page as consumed by the core: its detected tables
(page.extract_tables()), its layout-preserving text
(page.extract_text(layout=True) or "") and its plain text
(page.extract_text() or ""). -/
structure Page where
  tables : List Table
  page_layout_text : Str
  page_raw_text : Str

/-- extract_general_info(page). -/
def extract_general_info (page : Page) : GenInfo :=
  let lines := splitOnNl page.page_layout_text
  let info := info_loop lines 0 lines { customer := [], well_name := [], load_out_date := [] }
  let info1 :=
    if info.customer = [] then
      match cust_fallback (splitOnNl page.page_raw_text) with
      | some c => { info with customer := c }
      | none => info
    else info
  let info2 :=
    if info1.customer ≠ [] then { info1 with customer := subEnergi info1.customer }
    else info1
  let info3 :=
    if info2.well_name = [] then
      match well_fallback (splitOnNl page.page_raw_text) with
      | some w => { info2 with well_name := w }
      | none => info2
    else info2
  let info4 :=
    if info3.well_name ≠ [] then
      match cleanWell info3.well_name with
      | some g => { info3 with well_name := strip g }
      | none => info3
    else info3
  info4

/-! ## Page processor (process_pdf) -/

/-- An opened PDF document: its pages. -/
structure PdfDoc where
  pages : List Page

/-- The observable stderr messages of process_pdf, as events. -/
inductive LogEvent where
  | warnNoPages (filename : Str)
  | textFallbackNote
  | errorProcessing (filename : Str)
deriving DecidableEq, Repr

/-- Build one SerialRecord from the document metadata and one extracted
item; now is the datetime.now() timestamp string. -/
def stamp (filename : Str) (info : GenInfo) (now : Str) (item : ExtractedItem) :
    SerialRecord :=
  { filename := filename
    customer := info.customer
    well_name := info.well_name
    load_out_date := info.load_out_date
    material_num := item.material_num
    description := item.description
    serial_trace := item.serial
    qty := item.qty
    extracted_at := now }

/-- process_pdf(pdf_path): the document argument is `none` when opening
the file raises (caught by the try/except and logged); a `none` result
of the table extractor models an exception during extraction, likewise
caught.  Returns the records together with the logged events. -/
def process_pdf (now filename : Str) (doc : Option PdfDoc) :
    List SerialRecord × List LogEvent :=
  match doc with
  | none => ([], [LogEvent.errorProcessing filename])
  | some pdf =>
    match pdf.pages with
    | [] => ([], [LogEvent.warnNoPages filename])
    | page1 :: _ =>
      let info := extract_general_info page1
      match extract_loadout_serials_from_table page1.tables with
      | none => ([], [LogEvent.errorProcessing filename])
      | some loadout =>
        if loadout.isEmpty then
          ((extract_loadout_serials_from_text page1.page_raw_text).map
            (stamp filename info now),
           [LogEvent.textFallbackNote])
        else (loadout.map (stamp filename info now), [])

/-! ## Derived notions used in claim statements -/

/-- Does a line of lines[i+1:i+3] survive the blank/Shipping filter of
the Sales Order branch? -/
def candidate_keep (l : Str) : Bool :=
  !((strip l).isEmpty || hasSubstr shippingLit (strip l))

/-- The first line of the slice that the Sales Order branch actually
inspects (the break fires on it whether or not the regex matches). -/
def first_candidate (cand : List Str) : Option Str :=
  cand.find? candidate_keep

/-- Does the customer pattern match the stripped line, with the well
pattern matching the stripped remainder after group 1? -/
def cust_well_hit (l : Str) : Bool :=
  match searchCust (strip l) with
  | none => false
  | some (_, s6) => (searchWell (strip s6)).isSome

/-! ## Concrete inputs used by the example theorems and witnesses -/

/-- The end-to-end table of the spec scenario: header
[Material #, Description, Serial / Trace #, Qty] and one data row with
stacked description and serial cells. -/
def c2Table : Table :=
  [ [some ("Material #".data), some ("Description".data),
     some ("Serial / Trace #".data), some ("Qty".data)],
    [some ("12345".data), some ("Valve\nGauge".data),
     some ("OWS-001\nOWS-002".data), some ("2".data)] ]

/-- A one-row table whose header mentions no serial column. -/
def c6SkippedTable : Table :=
  [ [some ("Material #".data), some ("Qty".data)] ]

/-- Page text of the end-to-end text-fallback scenario. -/
def c8Text : Str :=
  "LOAD OUT LIST\n000123456 Pressure Gauge OWS-9981-A 4\nLoad Out Verification".data

/-- Page text whose section line starts with an 8-digit token, contains
an OWS- token, and contains the literal Description. -/
def c9Text : Str :=
  "LOAD OUT LIST\n12345678 Description OWS-0001 4".data

/-- Layout text where the first inspected non-empty, non-Shipping line
after the Sales Order header does not match the customer regex and the
second one would. -/
def c7CxPage : Page :=
  { tables := []
    page_layout_text := "Sales Order/Planning Order Number\nX\nVAR ENERGI  EESSA_1".data
    page_raw_text := [] }

/-- Layout text where the first inspected line does match the customer
and well patterns. -/
def c7OkPage : Page :=
  { tables := []
    page_layout_text := "Sales Order/Planning Order Number\nVAR ENERGI  EESSA_1".data
    page_raw_text := [] }

/-- A document whose only page carries the scenario table. -/
def c3Doc : PdfDoc :=
  { pages := [ { tables := [c2Table], page_layout_text := [], page_raw_text := [] } ] }

/-- A document whose only page has no tables and the scenario text. -/
def c3TextDoc : PdfDoc :=
  { pages := [ { tables := [], page_layout_text := [], page_raw_text := c8Text } ] }

/-- A document whose only page has a ragged load-out table: the serial
column index exceeds the data row length, which raises IndexError in
the source. -/
def c4RaggedDoc : PdfDoc :=
  { pages := [ { tables := [ [ [some ("x".data), some ("Serial".data)],
                               [some ("y".data)] ] ],
                 page_layout_text := [], page_raw_text := [] } ] }

/-- The three facts guaranteed by a false serial skip test. -/
def good_serial (s : Str) : Prop :=
  s ≠ [] ∧ lowerStr s ≠ noneTokLit ∧ lowerStr s ≠ naTokLit

/-- Both metadata fields of interest are non-empty. -/
def both_ne (info : GenInfo) : Prop :=
  info.customer ≠ [] ∧ info.well_name ≠ []

/-! ## Theorems -/

/-- C2: for a page whose detected tables contain exactly one table with
header row [Material #, Description, Serial / Trace #, Qty] and one
data row [12345, Valve\nGauge, OWS-001\nOWS-002, 2], the table
extractor returns exactly two items in order, 12345/Valve/OWS-001/2
then 12345/Gauge/OWS-002/2, with the single quantity string 2 attached
unsplit to both items. -/
theorem C2_end_to_end_table_scenario :
    extract_loadout_serials_from_table [c2Table]
      = some [ { material_num := "12345".data, description := "Valve".data,
                 serial := "OWS-001".data, qty := "2".data },
               { material_num := "12345".data, description := "Gauge".data,
                 serial := "OWS-002".data, qty := "2".data } ] := by
  decide

/-- C8: for a page text whose LOAD OUT LIST section consists of the line
"000123456 Pressure Gauge OWS-9981-A 4", the text-fallback extractor
emits exactly the item 000123456 / Pressure Gauge / OWS-9981-A / 4; the
first conjunct shows the per-line parse of that very line, the second
the end-to-end extraction. -/
theorem C8_end_to_end_text_scenario :
    line_item ("000123456 Pressure Gauge OWS-9981-A 4".data)
      = some { material_num := "000123456".data, description := "Pressure Gauge".data,
               serial := "OWS-9981-A".data, qty := "4".data }
    ∧ extract_loadout_serials_from_text c8Text
      = [ { material_num := "000123456".data, description := "Pressure Gauge".data,
            serial := "OWS-9981-A".data, qty := "4".data } ] := by
  constructor
  · decide
  · decide

/-! ### Lemmas about the pairing loop -/

theorem fb_nth_of_le (xs : List Str) (i : Nat) (h : xs.length ≤ i) :
    fb_nth xs i = xs.headD [] := by
  unfold fb_nth
  rw [if_neg (by omega)]
  cases xs <;> rfl

theorem pair_items_mem (m d : List Str) (q : Str) :
    ∀ (ss : List Str) (j i : Nat) (s : Str), ss.get? i = some s →
      serial_skip s = false →
      item_for m d q (j + i) s ∈ pair_items m d q j ss := by
  intro ss
  induction ss with
  | nil => intro j i s h _; simp at h
  | cons a as ih =>
    intro j i s h hk
    cases i with
    | zero =>
      have ha : a = s := by
        have h' : some a = some s := h
        exact Option.some.inj h'
      subst ha
      simp [pair_items, hk]
    | succ i' =>
      have h' : as.get? i' = some s := h
      have hmem := ih (j + 1) i' s h' hk
      have harith : j + (i' + 1) = (j + 1) + i' := by omega
      rw [harith]
      simp only [pair_items, List.mem_append]
      right
      exact hmem

/-- C1: for every data row, when the material list is shorter than the
pairing index i (materials.length <= i) and the serial sub-value at i
survives the filter, the item emitted at index i is in the row's
output, its material_num is the head of the materials list when that
list is nonempty and the empty string when it is empty
(List.headD materials []), and under the analogous hypothesis the same
fallback rule gives its description. -/
theorem C1_first_value_carries_forward
    (serial_cell material_cell desc_cell qty_cell : Str) (i : Nat) (s : Str)
    (hget : (cleanSplit serial_cell).get? i = some s)
    (hM : (cleanSplit material_cell).length ≤ i)
    (hkeep : serial_skip s = false) :
    item_for (cleanSplit material_cell) (cleanSplit desc_cell) qty_cell i s
        ∈ pair_items (cleanSplit material_cell) (cleanSplit desc_cell) qty_cell 0
            (cleanSplit serial_cell)
    ∧ (item_for (cleanSplit material_cell) (cleanSplit desc_cell) qty_cell i s).material_num
        = (cleanSplit material_cell).headD []
    ∧ ((cleanSplit desc_cell).length ≤ i →
        (item_for (cleanSplit material_cell) (cleanSplit desc_cell) qty_cell i s).description
          = (cleanSplit desc_cell).headD []) := by
  refine ⟨?_, ?_, ?_⟩
  · have hmem := pair_items_mem (cleanSplit material_cell) (cleanSplit desc_cell)
      qty_cell (cleanSplit serial_cell) 0 i s hget hkeep
    simpa using hmem
  · simp [item_for, fb_nth_of_le _ _ hM]
  · intro hD
    simp [item_for, fb_nth_of_le _ _ hD]

/-- Witness for C1 at the scenario row: the serial cell has two
sub-values, the material cell one, and the item at index 1 receives
materials[0]. -/
theorem C1_witness :
    item_for (cleanSplit ("12345".data)) (cleanSplit ("Valve\nGauge".data)) ("2".data) 1
        ("OWS-002".data)
      ∈ pair_items (cleanSplit ("12345".data)) (cleanSplit ("Valve\nGauge".data)) ("2".data) 0
          (cleanSplit ("OWS-001\nOWS-002".data))
    ∧ (item_for (cleanSplit ("12345".data)) (cleanSplit ("Valve\nGauge".data)) ("2".data) 1
        ("OWS-002".data)).material_num = (cleanSplit ("12345".data)).headD [] := by
  have h := C1_first_value_carries_forward ("OWS-001\nOWS-002".data) ("12345".data)
    ("Valve\nGauge".data) ("2".data) 1 ("OWS-002".data) (by decide) (by decide) (by decide)
  exact ⟨h.1, h.2.1⟩

/-! ### Lemmas about newline splitting -/

theorem splitOnNl_no_nl (p : Str) (h : ∀ c ∈ p, c ≠ '\n') : splitOnNl p = [p] := by
  induction p with
  | nil => rfl
  | cons c rest ih =>
    have hc : c ≠ '\n' := h c (List.mem_cons_self c rest)
    have hrest : ∀ d ∈ rest, d ≠ '\n' := fun d hd => h d (List.mem_cons_of_mem c hd)
    simp only [splitOnNl, if_neg hc, ih hrest]

theorem splitOnNl_append_nl (p s : Str) (h : ∀ c ∈ p, c ≠ '\n') :
    splitOnNl (p ++ '\n' :: s) = p :: splitOnNl s := by
  induction p with
  | nil => simp [splitOnNl]
  | cons c rest ih =>
    have hc : c ≠ '\n' := h c (List.mem_cons_self c rest)
    have hrest : ∀ d ∈ rest, d ≠ '\n' := fun d hd => h d (List.mem_cons_of_mem c hd)
    have ih' := ih hrest
    simp only [List.cons_append, splitOnNl, if_neg hc, List.append_eq, ih']

theorem splitOnNl_joinNl (parts : List Str)
    (h : ∀ p ∈ parts, ∀ c ∈ p, c ≠ '\n') (hne : parts ≠ []) :
    splitOnNl (joinNl parts) = parts := by
  induction parts with
  | nil => exact absurd rfl hne
  | cons p rest ih =>
    cases rest with
    | nil =>
      exact splitOnNl_no_nl p (h p (List.mem_cons_self p []))
    | cons q qs =>
      have hp : ∀ c ∈ p, c ≠ '\n' := h p (List.mem_cons_self p (q :: qs))
      have hrest : ∀ r ∈ q :: qs, ∀ c ∈ r, c ≠ '\n' :=
        fun r hr => h r (List.mem_cons_of_mem p hr)
      have ih' := ih hrest (by simp)
      calc splitOnNl (joinNl (p :: q :: qs))
          = splitOnNl (p ++ '\n' :: joinNl (q :: qs)) := rfl
        _ = p :: splitOnNl (joinNl (q :: qs)) := splitOnNl_append_nl p _ hp
        _ = p :: q :: qs := by rw [ih']

/-- C10: whitespace-only sub-lines are dropped before positional
pairing: splitting a cell assembled from newline-separated pieces keeps
exactly the non-blank pieces, stripped, in order; consequently in the
two example rows the description B pairs with the second non-empty
serial sub-value, and a blank line inside the serial cell produces no
item and does not shift the pairing of the later serial. -/
theorem C10_blank_sublines_dropped :
    (∀ parts : List Str, (∀ p ∈ parts, ∀ c ∈ p, c ≠ '\n') →
      cleanSplit (joinNl parts)
        = parts.filterMap (fun p => let t := strip p; if t = [] then none else some t))
    ∧ pair_items (cleanSplit ("M1\nM2".data)) (cleanSplit ("A\n\nB".data)) ("1".data) 0
        (cleanSplit ("S1\nS2".data))
      = [ { material_num := "M1".data, description := "A".data,
            serial := "S1".data, qty := "1".data },
          { material_num := "M2".data, description := "B".data,
            serial := "S2".data, qty := "1".data } ]
    ∧ pair_items (cleanSplit ("M1\nM2".data)) (cleanSplit ("D1\nD2".data)) ("1".data) 0
        (cleanSplit ("S1\n\nS2".data))
      = [ { material_num := "M1".data, description := "D1".data,
            serial := "S1".data, qty := "1".data },
          { material_num := "M2".data, description := "D2".data,
            serial := "S2".data, qty := "1".data } ] := by
  refine ⟨?_, by decide, by decide⟩
  intro parts h
  cases hp : parts with
  | nil => decide
  | cons p rest =>
    rw [← hp]
    unfold cleanSplit
    rw [splitOnNl_joinNl parts h (by rw [hp]; simp)]

/-- Witness for C10's universally quantified conjunct at a concrete
list of pieces containing a whitespace-only piece. -/
theorem C10_witness :
    cleanSplit (joinNl [" A ".data, "  ".data, "B".data])
      = [" A ".data, "  ".data, "B".data].filterMap
          (fun p => let t := strip p; if t = [] then none else some t) := by
  exact C10_blank_sublines_dropped.1 [" A ".data, "  ".data, "B".data] (by decide)

/-! ### Lemmas about skipped tables -/

theorem table_items_skip (t : Table)
    (h : t.length < 2
      ∨ ∃ header rows, t = header :: rows
          ∧ ((hasSubstr serialLit (joinSpace (header.map cellStr)) = false
              ∧ hasSubstr traceLit (joinSpace (header.map cellStr)) = false)
             ∨ (classify_cols 0 header init_cols).serial_col = none)) :
    table_items t = some [] := by
  cases t with
  | nil => rfl
  | cons header rows =>
    show (if (header :: rows).length < 2 then some []
      else
        let header_text := joinSpace (header.map cellStr)
        if hasSubstr serialLit header_text || hasSubstr traceLit header_text then
          let cols := classify_cols 0 header init_cols
          match cols.serial_col with
          | none => some []
          | some sc => rows_items cols sc rows
        else some []) = some []
    by_cases hlen : (header :: rows).length < 2
    · rw [if_pos hlen]
    · rw [if_neg hlen]
      rcases h with h | ⟨header2, rows2, heq, hcond⟩
      · exact absurd h hlen
      · cases heq
        rcases hcond with ⟨hs, ht⟩ | hser
        · simp only [hs, ht]
          rfl
        · by_cases hhdr : (hasSubstr serialLit (joinSpace (header.map cellStr))
              || hasSubstr traceLit (joinSpace (header.map cellStr))) = true
          · simp only [hhdr, hser]
            split_ifs <;> rfl
          · rw [if_neg hhdr]

theorem extract_table_cons (t : Table) (rest : List Table) :
    extract_loadout_serials_from_table (t :: rest)
      = match table_items t with
        | none => none
        | some items =>
          (extract_loadout_serials_from_table rest).map (fun more => items ++ more) := rfl

theorem extract_table_middle_skip (t : Table) (h : table_items t = some [])
    (pre post : List Table) :
    extract_loadout_serials_from_table (pre ++ t :: post)
      = extract_loadout_serials_from_table (pre ++ post) := by
  induction pre with
  | nil =>
    simp only [List.nil_append]
    rw [extract_table_cons, h]
    generalize extract_loadout_serials_from_table post = o
    cases o <;> simp
  | cons p ps ih =>
    show extract_loadout_serials_from_table (p :: (ps ++ t :: post))
      = extract_loadout_serials_from_table (p :: (ps ++ post))
    rw [extract_table_cons, extract_table_cons, ih]

/-- C6: a table whose header row is missing, has fewer than 2 rows, or
whose joined header text lacks both Serial and Trace, or in which the
header classification finds no serial column, contributes zero items:
deleting it from the page's table list leaves the extractor's result
unchanged. -/
theorem C6_non_loadout_tables_contribute_nothing (pre post : List Table) (t : Table)
    (h : t.length < 2
      ∨ ∃ header rows, t = header :: rows
          ∧ ((hasSubstr serialLit (joinSpace (header.map cellStr)) = false
              ∧ hasSubstr traceLit (joinSpace (header.map cellStr)) = false)
             ∨ (classify_cols 0 header init_cols).serial_col = none)) :
    extract_loadout_serials_from_table (pre ++ t :: post)
      = extract_loadout_serials_from_table (pre ++ post) := by
  exact extract_table_middle_skip t (table_items_skip t h) pre post

/-- Witness for C6: dropping a short serial-less table in front of the
scenario table does not change the extraction result. -/
theorem C6_witness :
    extract_loadout_serials_from_table ([] ++ c6SkippedTable :: [c2Table])
      = extract_loadout_serials_from_table ([] ++ [c2Table]) := by
  exact C6_non_loadout_tables_contribute_nothing [] [c2Table] c6SkippedTable
    (Or.inl (by decide))

/-! ### Lemmas about process_pdf -/

theorem process_pdf_page (now filename : Str) (pdf : PdfDoc) (page1 : Page)
    (rest : List Page) (hp : pdf.pages = page1 :: rest) :
    process_pdf now filename (some pdf)
      = match extract_loadout_serials_from_table page1.tables with
        | none => ([], [LogEvent.errorProcessing filename])
        | some loadout =>
          if loadout.isEmpty then
            ((extract_loadout_serials_from_text page1.page_raw_text).map
              (stamp filename (extract_general_info page1) now),
             [LogEvent.textFallbackNote])
          else (loadout.map (stamp filename (extract_general_info page1) now), []) := by
  obtain ⟨pages⟩ := pdf
  cases hp
  rfl

/-- C3: the text fallback runs if and only if the table extractor
returns an empty item list; the record set is exactly the stamped table
items when they are non-empty (no fallback note is logged), and exactly
the stamped text items when the table extractor returns the empty list
(the fallback note is logged); the two outputs are never merged. -/
theorem C3_strict_either_or (now filename : Str) (pdf : PdfDoc) (page1 : Page)
    (rest : List Page) (hp : pdf.pages = page1 :: rest) :
    (∀ items, extract_loadout_serials_from_table page1.tables = some items →
      items ≠ [] →
      process_pdf now filename (some pdf)
        = (items.map (stamp filename (extract_general_info page1) now), []))
    ∧ (extract_loadout_serials_from_table page1.tables = some [] →
      process_pdf now filename (some pdf)
        = ((extract_loadout_serials_from_text page1.page_raw_text).map
            (stamp filename (extract_general_info page1) now),
           [LogEvent.textFallbackNote])) := by
  constructor
  · intro items hi hne
    rw [process_pdf_page now filename pdf page1 rest hp, hi]
    have : items.isEmpty = false := by
      cases items with
      | nil => exact absurd rfl hne
      | cons a as => rfl
    simp [this]
  · intro hi
    rw [process_pdf_page now filename pdf page1 rest hp, hi]
    rfl

/-- Witness for C3 at two concrete documents: one where the table path
succeeds with two items and no fallback note is logged, one where the
table path is empty and the stamped text-fallback items are returned
with the fallback note. -/
theorem C3_witness :
    process_pdf ("T0".data) ("f.pdf".data) (some c3Doc)
      = ([ stamp ("f.pdf".data) (extract_general_info (c3Doc.pages.headD
             { tables := [], page_layout_text := [], page_raw_text := [] })) ("T0".data)
             { material_num := "12345".data, description := "Valve".data,
               serial := "OWS-001".data, qty := "2".data },
           stamp ("f.pdf".data) (extract_general_info (c3Doc.pages.headD
             { tables := [], page_layout_text := [], page_raw_text := [] })) ("T0".data)
             { material_num := "12345".data, description := "Gauge".data,
               serial := "OWS-002".data, qty := "2".data } ], [])
    ∧ process_pdf ("T0".data) ("g.pdf".data) (some c3TextDoc)
      = ((extract_loadout_serials_from_text c8Text).map
          (stamp ("g.pdf".data) (extract_general_info (c3TextDoc.pages.headD
             { tables := [], page_layout_text := [], page_raw_text := [] })) ("T0".data)),
         [LogEvent.textFallbackNote]) := by
  constructor
  · have h := (C3_strict_either_or ("T0".data) ("f.pdf".data) c3Doc
      (c3Doc.pages.headD { tables := [], page_layout_text := [], page_raw_text := [] })
      [] (by rfl)).1
      [ { material_num := "12345".data, description := "Valve".data,
          serial := "OWS-001".data, qty := "2".data },
        { material_num := "12345".data, description := "Gauge".data,
          serial := "OWS-002".data, qty := "2".data } ]
      (by decide) (by decide)
    exact h
  · have h := (C3_strict_either_or ("T0".data) ("g.pdf".data) c3TextDoc
      (c3TextDoc.pages.headD { tables := [], page_layout_text := [], page_raw_text := [] })
      [] (by rfl)).2 (by decide)
    exact h

/-- C4: process_pdf is a total function of its inputs (the model of
"never raises"); a failed open yields zero records with an error log, a
zero-page document yields zero records with the no-pages warning, an
exception escaping the table extractor yields zero records with an
error log naming the file, and in every case the record list is either
empty or the complete stamped item list of exactly one extraction
path. -/
theorem C4_failure_containment (now filename : Str) (doc : Option PdfDoc) :
    (doc = none → process_pdf now filename doc
        = ([], [LogEvent.errorProcessing filename]))
    ∧ (∀ pdf, doc = some pdf → pdf.pages = [] →
        process_pdf now filename doc = ([], [LogEvent.warnNoPages filename]))
    ∧ (∀ pdf page1 rest, doc = some pdf → pdf.pages = page1 :: rest →
        extract_loadout_serials_from_table page1.tables = none →
        process_pdf now filename doc = ([], [LogEvent.errorProcessing filename]))
    ∧ ((process_pdf now filename doc).1 = []
       ∨ ∃ pdf page1 rest items, doc = some pdf ∧ pdf.pages = page1 :: rest
           ∧ (process_pdf now filename doc).1
              = items.map (stamp filename (extract_general_info page1) now)
           ∧ ((extract_loadout_serials_from_table page1.tables = some items
                ∧ items ≠ [])
              ∨ (extract_loadout_serials_from_table page1.tables = some []
                ∧ items = extract_loadout_serials_from_text page1.page_raw_text))) := by
  refine ⟨?_, ?_, ?_, ?_⟩
  · intro h; subst h; rfl
  · intro pdf h hp
    subst h
    obtain ⟨pages⟩ := pdf
    cases hp
    rfl
  · intro pdf page1 rest h hp ht
    subst h
    rw [process_pdf_page now filename pdf page1 rest hp, ht]
  · cases doc with
    | none => left; rfl
    | some pdf =>
      obtain ⟨pages⟩ := pdf
      cases pages with
      | nil => left; rfl
      | cons page1 rest =>
        have hp : PdfDoc.pages { pages := page1 :: rest } = page1 :: rest := rfl
        rw [process_pdf_page now filename { pages := page1 :: rest } page1 rest hp]
        cases ht : extract_loadout_serials_from_table page1.tables with
        | none => left; rfl
        | some loadout =>
          cases hl : loadout with
          | nil =>
            right
            refine ⟨{ pages := page1 :: rest }, page1, rest,
              extract_loadout_serials_from_text page1.page_raw_text,
              rfl, hp, ?_, Or.inr ⟨by rw [← hl]; exact ht, rfl⟩⟩
            simp
          | cons a as =>
            right
            refine ⟨{ pages := page1 :: rest }, page1, rest, a :: as, rfl, hp, ?_,
              Or.inl ⟨by rw [← hl]; exact ht, by simp⟩⟩
            simp

/-- Witness for C4 at concrete inputs: a failed open, a zero-page
document, and a document with a ragged load-out table whose extraction
raises. -/
theorem C4_witness :
    process_pdf ("T0".data) ("f.pdf".data) none
      = ([], [LogEvent.errorProcessing ("f.pdf".data)])
    ∧ process_pdf ("T0".data) ("f.pdf".data) (some { pages := [] })
      = ([], [LogEvent.warnNoPages ("f.pdf".data)])
    ∧ process_pdf ("T0".data) ("f.pdf".data) (some c4RaggedDoc)
      = ([], [LogEvent.errorProcessing ("f.pdf".data)]) := by
  refine ⟨?_, ?_, ?_⟩
  · exact (C4_failure_containment ("T0".data) ("f.pdf".data) none).1 rfl
  · exact (C4_failure_containment ("T0".data) ("f.pdf".data)
      (some { pages := [] })).2.1 { pages := [] } rfl rfl
  · exact (C4_failure_containment ("T0".data) ("f.pdf".data)
      (some c4RaggedDoc)).2.2.1 c4RaggedDoc
      (c4RaggedDoc.pages.headD { tables := [], page_layout_text := [], page_raw_text := [] })
      [] rfl rfl (by decide)

/-! ### Lemmas for serial filtering -/

theorem serial_skip_false {s : Str} (h : serial_skip s = false) : good_serial s := by
  unfold serial_skip at h
  split_ifs at h with h1 h2 h3 h4
  exact ⟨h1, h2, h4⟩

theorem pair_items_good (m d : List Str) (q : Str) :
    ∀ (ss : List Str) (j : Nat) (it : ExtractedItem),
      it ∈ pair_items m d q j ss → good_serial it.serial := by
  intro ss
  induction ss with
  | nil => intro j it h; simp [pair_items] at h
  | cons a as ih =>
    intro j it h
    simp only [pair_items, List.mem_append] at h
    rcases h with h | h
    · by_cases hk : serial_skip a
      · rw [if_pos hk] at h
        simp at h
      · rw [if_neg hk] at h
        simp at h
        subst h
        exact serial_skip_false (Bool.not_eq_true _ ▸ eq_false_of_ne_true hk)
    · exact ih (j + 1) it h

theorem row_record_items_good (cols : Cols) (sc : Nat) (row : TableRow)
    (items : List ExtractedItem) (h : row_record_items cols sc row = some items) :
    ∀ it ∈ items, good_serial it.serial := by
  intro it hit
  unfold row_record_items at h
  split_ifs at h with hblank
  · cases h
    simp at hit
  · cases hrow : row.get? sc with
    | none => rw [hrow] at h; cases h
    | some scell =>
      rw [hrow] at h
      cases hm : optColCell row cols.material_col with
      | none => rw [hm] at h; cases h
      | some material_cell =>
        rw [hm] at h
        cases hd : optColCell row cols.desc_col with
        | none => rw [hd] at h; cases h
        | some desc_cell =>
          rw [hd] at h
          cases hq : optColCell row cols.qty_col with
          | none => rw [hq] at h; cases h
          | some qty_cell =>
            rw [hq] at h
            cases h
            exact pair_items_good _ _ _ _ 0 it hit

theorem rows_items_good (cols : Cols) (sc : Nat) :
    ∀ (rows : List TableRow) (items : List ExtractedItem),
      rows_items cols sc rows = some items → ∀ it ∈ items, good_serial it.serial := by
  intro rows
  induction rows with
  | nil =>
    intro items h it hit
    cases h
    simp at hit
  | cons row rest ih =>
    intro items h it hit
    unfold rows_items at h
    cases hr : row_record_items cols sc row with
    | none => rw [hr] at h; cases h
    | some ritems =>
      rw [hr] at h
      cases hrest : rows_items cols sc rest with
      | none => rw [hrest] at h; cases h
      | some more =>
        rw [hrest] at h
        cases h
        rcases List.mem_append.mp hit with hx | hx
        · exact row_record_items_good cols sc row ritems hr it hx
        · exact ih more hrest it hx

theorem table_items_good (t : Table) (items : List ExtractedItem)
    (h : table_items t = some items) : ∀ it ∈ items, good_serial it.serial := by
  intro it hit
  cases t with
  | nil => cases h; simp at hit
  | cons header_row data_rows =>
    have h' : (if (header_row :: data_rows).length < 2 then some []
      else
        let header_text := joinSpace (header_row.map cellStr)
        if hasSubstr serialLit header_text || hasSubstr traceLit header_text then
          let cols := classify_cols 0 header_row init_cols
          match cols.serial_col with
          | none => some []
          | some sc => rows_items cols sc data_rows
        else some []) = some items := h
    clear h
    split_ifs at h' with hlen
    · cases h'; simp at hit
    · simp only [] at h'
      split_ifs at h' with hhdr
      · cases hser : (classify_cols 0 header_row init_cols).serial_col with
        | none => rw [hser] at h'; cases h'; simp at hit
        | some sc =>
          rw [hser] at h'
          exact rows_items_good (classify_cols 0 header_row init_cols) sc data_rows items h' it hit
      · cases h'
        simp at hit

theorem extract_table_good :
    ∀ (tables : List Table) (items : List ExtractedItem),
      extract_loadout_serials_from_table tables = some items →
      ∀ it ∈ items, good_serial it.serial := by
  intro tables
  induction tables with
  | nil =>
    intro items h it hit
    cases h
    simp at hit
  | cons t rest ih =>
    intro items h it hit
    rw [extract_table_cons] at h
    cases htab : table_items t with
    | none => rw [htab] at h; cases h
    | some titems =>
      rw [htab] at h
      cases hrest : extract_loadout_serials_from_table rest with
      | none => rw [hrest] at h; cases h
      | some more =>
        rw [hrest] at h
        cases h
        rcases List.mem_append.mp hit with hx | hx
        · exact table_items_good t titems htab it hx
        · exact ih more hrest it hx

theorem owsAt_shape {s : Str} {g a : Str} (h : owsAt s = some (g, a)) :
    ∃ run, run ≠ [] ∧ g = owsDashLit ++ run := by
  unfold owsAt at h
  simp only [] at h
  split_ifs at h with h1 h2
  refine ⟨((s.drop 4).takeWhile isWordDash), ?_, ?_⟩
  · intro hemp
    rw [hemp] at h2
    exact h2 rfl
  · exact congrArg Prod.fst (Option.some.inj h).symm

theorem digits8At_shape {s : Str} {g a : Str} (h : digits8At s = some (g, a)) :
    g.length = 8 ∧ g.all isDigitC := by
  unfold digits8At at h
  simp only [] at h
  split_ifs at h with h1
  rw [Bool.and_eq_true, decide_eq_true_eq] at h1
  obtain ⟨hl, hd⟩ := h1
  cases hdrop : s.drop 8 with
  | nil =>
    rw [hdrop] at h
    have hg : g = s.take 8 := congrArg Prod.fst (Option.some.inj h).symm
    subst hg
    exact ⟨hl, hd⟩
  | cons c rest =>
    rw [hdrop] at h
    have h2 : (if isWordChar c = true then none else some (s.take 8, c :: rest))
        = some (g, a) := h
    split_ifs at h2 with hw
    have hg : g = s.take 8 := congrArg Prod.fst (Option.some.inj h2).symm
    subst hg
    exact ⟨hl, hd⟩

theorem serialAt_shape {prevW : Bool} {s g a : Str}
    (h : serialAt prevW s = some (g, a)) :
    (∃ run, run ≠ [] ∧ g = owsDashLit ++ run) ∨ (g.length = 8 ∧ g.all isDigitC) := by
  unfold serialAt at h
  cases ho : owsAt s with
  | some r =>
    obtain ⟨g0, a0⟩ := r
    rw [ho] at h
    have h' : (some (g0, a0) : Option (Str × Str)) = some (g, a) := h
    have hg : g0 = g := congrArg Prod.fst (Option.some.inj h')
    subst hg
    exact Or.inl (owsAt_shape ho)
  | none =>
    rw [ho] at h
    have h' : (if prevW = true then none else digits8At s) = some (g, a) := h
    split_ifs at h' with hp
    exact Or.inr (digits8At_shape h')

theorem searchSerialAux_shape :
    ∀ (s : Str) (start : Nat) (prevW : Bool) (st : Nat) (g a : Str),
      searchSerialAux start prevW s = some (st, g, a) →
      (∃ run, run ≠ [] ∧ g = owsDashLit ++ run) ∨ (g.length = 8 ∧ g.all isDigitC) := by
  intro s
  induction s with
  | nil => intro start prevW st g a h; cases h
  | cons c rest ih =>
    intro start prevW st g a h
    unfold searchSerialAux at h
    cases hs : serialAt prevW (c :: rest) with
    | some r =>
      obtain ⟨g0, a0⟩ := r
      rw [hs] at h
      cases h
      exact serialAt_shape hs
    | none =>
      rw [hs] at h
      exact ih (start + 1) (isWordChar c) st g a h

theorem good_serial_of_shape {g : Str}
    (h : (∃ run, run ≠ [] ∧ g = owsDashLit ++ run) ∨ (g.length = 8 ∧ g.all isDigitC)) :
    good_serial g := by
  rcases h with ⟨run, hne, rfl⟩ | ⟨hlen, _⟩
  · refine ⟨by simp [owsDashLit], ?_, ?_⟩
    · intro heq
      have := congrArg List.head? heq
      simp [lowerStr, owsDashLit, noneTokLit] at this
    · intro heq
      have := congrArg List.head? heq
      simp [lowerStr, owsDashLit, naTokLit] at this
  · refine ⟨?_, ?_, ?_⟩
    · intro heq
      rw [heq] at hlen
      simp at hlen
    · intro heq
      have := congrArg List.length heq
      simp [lowerStr, noneTokLit, hlen] at this
    · intro heq
      have := congrArg List.length heq
      simp [lowerStr, naTokLit, hlen] at this

theorem line_item_good {l : Str} {it : ExtractedItem} (h : line_item l = some it) :
    good_serial it.serial := by
  unfold line_item at h
  simp only [] at h
  split_ifs at h with h1
  cases hs : searchSerial (strip l) with
  | none => rw [hs] at h; cases h
  | some r =>
    obtain ⟨st, g, a⟩ := r
    rw [hs] at h
    have h2 : (some g : Option Str) = some it.serial :=
      congrArg (Option.map ExtractedItem.serial) h
    rw [← Option.some.inj h2]
    exact good_serial_of_shape (searchSerialAux_shape (strip l) 0 false st g a hs)

theorem extract_text_good (t : Str) :
    ∀ it ∈ extract_loadout_serials_from_text t, good_serial it.serial := by
  intro it hit
  unfold extract_loadout_serials_from_text at hit
  cases hs : searchLoadoutSection t with
  | none => rw [hs] at hit; simp at hit
  | some sect =>
    rw [hs] at hit
    obtain ⟨l, _, hl⟩ := List.mem_filterMap.mp hit
    exact line_item_good hl

/-- C5: a serial sub-value that is blank after trimming or
case-insensitively equal to none or n/a never produces an item: every
item emitted by the table path (when no exception escapes) and every
item emitted by the text path has a non-empty serial whose lowercase
form is neither none nor n/a. -/
theorem C5_serial_filtering :
    (∀ (tables : List Table) (items : List ExtractedItem),
      extract_loadout_serials_from_table tables = some items →
      ∀ it ∈ items,
        it.serial ≠ [] ∧ lowerStr it.serial ≠ noneTokLit ∧ lowerStr it.serial ≠ naTokLit)
    ∧ (∀ (t : Str), ∀ it ∈ extract_loadout_serials_from_text t,
        it.serial ≠ [] ∧ lowerStr it.serial ≠ noneTokLit ∧ lowerStr it.serial ≠ naTokLit) := by
  exact ⟨fun tables items h it hit => extract_table_good tables items h it hit,
    fun t it hit => extract_text_good t it hit⟩

/-- Witness for C5 at the items of the two end-to-end scenarios. -/
theorem C5_witness :
    (("OWS-001".data : Str) ≠ [] ∧ lowerStr ("OWS-001".data) ≠ noneTokLit
      ∧ lowerStr ("OWS-001".data) ≠ naTokLit)
    ∧ (("OWS-9981-A".data : Str) ≠ [] ∧ lowerStr ("OWS-9981-A".data) ≠ noneTokLit
      ∧ lowerStr ("OWS-9981-A".data) ≠ naTokLit) := by
  constructor
  · have h := C5_serial_filtering.1 [c2Table]
      [ { material_num := "12345".data, description := "Valve".data,
          serial := "OWS-001".data, qty := "2".data },
        { material_num := "12345".data, description := "Gauge".data,
          serial := "OWS-002".data, qty := "2".data } ]
      (by decide)
      { material_num := "12345".data, description := "Valve".data,
        serial := "OWS-001".data, qty := "2".data }
      (by decide)
    exact h
  · have h := C5_serial_filtering.2 c8Text
      { material_num := "000123456".data, description := "Pressure Gauge".data,
        serial := "OWS-9981-A".data, qty := "4".data }
      (by decide)
    exact h

/-! ### Lemmas for the leftmost serial match (C9) -/

theorem startsWith_ows_false_of_digit {d : Char} (hd : isDigitC d = true) (t : Str) :
    startsWithStr owsDashLit (d :: t) = false := by
  have hstep : startsWithStr owsDashLit (d :: t)
      = (('O' == d) && startsWithStr ("WS-".data) t) := rfl
  rw [hstep]
  have hO : ('O' == d) = false := by
    cases hbe : ('O' == d) with
    | false => rfl
    | true =>
      exfalso
      have heq : 'O' = d := eq_of_beq hbe
      rw [← heq] at hd
      exact absurd hd (by decide)
  rw [hO]
  rfl

theorem searchSerial_digits_hit (ds rest : Str) (hlen : ds.length = 8)
    (hdig : ∀ c ∈ ds, isDigitC c = true)
    (hbound : rest = [] ∨ ∃ c t, rest = c :: t ∧ isWordChar c = false) :
    searchSerial (ds ++ rest) = some (0, ds, rest) := by
  obtain ⟨d, ds', rfl⟩ : ∃ d ds', ds = d :: ds' := by
    cases ds with
    | nil => simp at hlen
    | cons d ds' => exact ⟨d, ds', rfl⟩
  have hser : serialAt false (d :: (ds' ++ rest)) = some (d :: ds', rest) := by
    unfold serialAt
    have howsf : owsAt (d :: (ds' ++ rest)) = none := by
      unfold owsAt
      rw [startsWith_ows_false_of_digit (hdig d (by simp)) (ds' ++ rest)]
      rfl
    rw [howsf]
    show digits8At (d :: (ds' ++ rest)) = some (d :: ds', rest)
    unfold digits8At
    simp only []
    have htake : (d :: (ds' ++ rest)).take 8 = d :: ds' := by
      rw [show (d :: (ds' ++ rest)) = (d :: ds') ++ rest from rfl, ← hlen]
      exact List.take_left (d :: ds') rest
    have hdrop : (d :: (ds' ++ rest)).drop 8 = rest := by
      rw [show (d :: (ds' ++ rest)) = (d :: ds') ++ rest from rfl, ← hlen]
      exact List.drop_left (d :: ds') rest
    rw [htake, hdrop]
    have hcond : (decide ((d :: ds').length = 8) && (d :: ds').all isDigitC) = true := by
      rw [Bool.and_eq_true, decide_eq_true_eq]
      exact ⟨hlen, List.all_eq_true.mpr hdig⟩
    rw [if_pos hcond]
    rcases hbound with rfl | ⟨c, t, rfl, hw⟩
    · rfl
    · show (if isWordChar c = true then none else some (d :: ds', c :: t))
        = some (d :: ds', c :: t)
      rw [hw]
      rfl
  show searchSerialAux 0 false ((d :: ds') ++ rest) = some (0, d :: ds', rest)
  rw [List.cons_append]
  unfold searchSerialAux
  rw [hser]

/-- C9 counterexample: the claim fails as stated.  The section of
c9Text consists of a single line whose leading token is exactly 8
digits (word-bounded) and which contains an OWS- token later on, yet
the extractor emits no item at all for it, because the line contains
the literal Description and is skipped by the header filter before the
serial search runs. -/
theorem C9_counterexample :
    searchLoadoutSection c9Text = some ("12345678 Description OWS-0001 4".data)
    ∧ strip ("12345678 Description OWS-0001 4".data)
        = "12345678".data ++ " Description OWS-0001 4".data
    ∧ ("12345678".data : Str).length = 8
    ∧ ("12345678".data : Str).all isDigitC = true
    ∧ isWordChar ' ' = false
    ∧ hasSubstr owsDashLit (" Description OWS-0001 4".data) = true
    ∧ line_item ("12345678 Description OWS-0001 4".data) = none
    ∧ extract_loadout_serials_from_text c9Text = [] := by
  decide

/-- C9 (amended): for every section line that survives the header
filter (it does not contain the literals Material # or Description),
whose stripped text starts with a word-bounded run of exactly 8 digits,
and which contains an OWS- token later in the line, the emitted item's
serial is the 8-digit leading token, its materialNum and description
are empty, the OWS- token is absorbed into the text after the serial,
and qty is the leading digit run of the whitespace-stripped text after
the 8-digit token (empty when that text does not begin with a digit). -/
theorem C9_leftmost_serial_amended (line ds rest : Str)
    (hsplit : strip line = ds ++ rest)
    (hlen : ds.length = 8)
    (hdig : ∀ c ∈ ds, isDigitC c = true)
    (hbound : rest = [] ∨ ∃ c t, rest = c :: t ∧ isWordChar c = false)
    (hows : hasSubstr owsDashLit rest = true)
    (hm : hasSubstr matHdrLit (strip line) = false)
    (hd : hasSubstr descriptionLit (strip line) = false) :
    line_item line = some { material_num := [], description := [],
                            serial := ds,
                            qty := (strip rest).takeWhile isDigitC } := by
  unfold line_item
  simp only []
  rw [hsplit] at hm hd ⊢
  have hne : decide ((ds ++ rest : Str) = []) = false := by
    rw [decide_eq_false_iff_not]
    intro hemp
    have hl := congrArg List.length hemp
    simp [hlen] at hl
  rw [if_neg (by rw [hne, hm, hd]; exact Bool.false_ne_true)]
  rw [searchSerial_digits_hit ds rest hlen hdig hbound]
  rfl

/-- Witness for the amended C9 at a concrete line with an 8-digit
leading token, a quantity, and a later OWS- token. -/
theorem C9_witness :
    line_item ("12345678 4 OWS-9".data)
      = some { material_num := [], description := [],
               serial := "12345678".data, qty := "4".data } := by
  have h := C9_leftmost_serial_amended ("12345678 4 OWS-9".data) ("12345678".data)
    (" 4 OWS-9".data) (by decide) (by decide) (by decide)
    (Or.inr ⟨' ', ("4 OWS-9".data), by decide, by decide⟩)
    (by decide) (by decide) (by decide)
  exact h.trans (by decide)

/-! ### Length and value lemmas for the regex combinators -/

theorem chC_len {p : Char → Bool} {k : Str → Option Str}
    (hk : ∀ t u, k t = some u → u.length ≤ t.length) :
    ∀ s u, chC p s k = some u → u.length ≤ s.length := by
  intro s u h
  cases s with
  | nil => cases h
  | cons c rest =>
    have h' : (if p c = true then k rest else none) = some u := h
    split_ifs at h' with hp
    exact Nat.le_succ_of_le (hk rest u h')

theorem starC_len {p : Char → Bool} {k : Str → Option Str}
    (hk : ∀ t u, k t = some u → u.length ≤ t.length) :
    ∀ s u, starC p s k = some u → u.length ≤ s.length := by
  intro s
  induction s with
  | nil => intro u h; exact hk [] u h
  | cons c rest ih =>
    intro u h
    unfold starC at h
    rcases (Option.orElse_eq_some _ _ _).mp h with h1 | ⟨_, h2⟩
    · split_ifs at h1 with hp
      exact Nat.le_succ_of_le (ih u h1)
    · exact hk (c :: rest) u h2

theorem lazyStarC_len {p : Char → Bool} {k : Str → Option Str}
    (hk : ∀ t u, k t = some u → u.length ≤ t.length) :
    ∀ s u, lazyStarC p s k = some u → u.length ≤ s.length := by
  intro s
  induction s with
  | nil => intro u h; exact hk [] u h
  | cons c rest ih =>
    intro u h
    unfold lazyStarC at h
    rcases (Option.orElse_eq_some _ _ _).mp h with h1 | ⟨_, h2⟩
    · exact hk (c :: rest) u h1
    · split_ifs at h2 with hp
      exact Nat.le_succ_of_le (ih u h2)

theorem plusC_len {p : Char → Bool} {k : Str → Option Str}
    (hk : ∀ t u, k t = some u → u.length ≤ t.length) :
    ∀ s u, plusC p s k = some u → u.length ≤ s.length := by
  intro s u h
  unfold plusC at h
  exact chC_len (fun t v hv => starC_len hk t v hv) s u h

theorem litC_len {k : Str → Option Str}
    (hk : ∀ t u, k t = some u → u.length ≤ t.length) :
    ∀ (lit s u : Str), litC lit s k = some u → u.length ≤ s.length := by
  intro lit
  induction lit with
  | nil => intro s u h; exact hk s u h
  | cons c lrest ih =>
    intro s u h
    cases s with
    | nil => exact Option.noConfusion h
    | cons a arest =>
      have h' : (if (a == c) = true then litC lrest arest k else none) = some u := h
      split_ifs at h' with he
      exact Nat.le_succ_of_le (ih arest u h')

theorem optCh_len {c : Char} {k : Str → Option Str}
    (hk : ∀ t u, k t = some u → u.length ≤ t.length) :
    ∀ s u, optCh c s k = some u → u.length ≤ s.length := by
  intro s u h
  unfold optCh at h
  rcases (Option.orElse_eq_some _ _ _).mp h with h1 | ⟨_, h2⟩
  · exact chC_len hk s u h1
  · exact hk s u h2

theorem cleanIterStar_len {k : Str → Option Str}
    (hk : ∀ t u, k t = some u → u.length ≤ t.length) :
    ∀ (fuel : Nat) (s u : Str), cleanIterStar fuel s k = some u → u.length ≤ s.length := by
  intro fuel
  induction fuel with
  | zero => intro s u h; exact hk s u h
  | succ f ih =>
    intro s u h
    unfold cleanIterStar at h
    rcases (Option.orElse_eq_some _ _ _).mp h with h1 | ⟨_, h2⟩
    · exact plusC_len (fun t v hv =>
        plusC_len (fun t2 v2 hv2 =>
          starC_len (fun t3 v3 hv3 => ih t3 v3 hv3) t2 v2 hv2) t v hv) s u h1
    · exact hk s u h2

theorem optSpH_len {k : Str → Option Str}
    (hk : ∀ t u, k t = some u → u.length ≤ t.length) :
    ∀ s u, optSpH s k = some u → u.length ≤ s.length := by
  intro s u h
  unfold optSpH at h
  rcases (Option.orElse_eq_some _ _ _).mp h with h1 | ⟨_, h2⟩
  · exact plusC_len (fun t v hv => chC_len hk t v hv) s u h1
  · exact hk s u h2

theorem chC_some_ex {p : Char → Bool} {k : Str → Option Str} {s u : Str}
    (h : chC p s k = some u) : ∃ t, k t = some u := by
  cases s with
  | nil => cases h
  | cons c rest =>
    have h' : (if p c = true then k rest else none) = some u := h
    split_ifs at h' with hp
    exact ⟨rest, h'⟩

theorem starC_some_ex {p : Char → Bool} {k : Str → Option Str} :
    ∀ {s u : Str}, starC p s k = some u → ∃ t, k t = some u := by
  intro s
  induction s with
  | nil => intro u h; exact ⟨[], h⟩
  | cons c rest ih =>
    intro u h
    unfold starC at h
    rcases (Option.orElse_eq_some _ _ _).mp h with h1 | ⟨_, h2⟩
    · split_ifs at h1 with hp
      exact ih h1
    · exact ⟨c :: rest, h2⟩

theorem litC_cons_ex {c : Char} {lit s : Str} {k : Str → Option Str} {u : Str}
    (h : litC (c :: lit) s k = some u) : ∃ s1, s = c :: s1 ∧ litC lit s1 k = some u := by
  cases s with
  | nil => exact Option.noConfusion h
  | cons a s1 =>
    have h' : (if (a == c) = true then litC lit s1 k else none) = some u := h
    split_ifs at h' with he
    exact ⟨s1, by rw [eq_of_beq he], h'⟩

/-! ### Shape lemmas for the metadata regexes -/

theorem custAt_g1 : ∀ (s s6 : Str), custAt s = some s6 →
    ∃ s1, s = 'V' :: s1 ∧ s6.length < s.length := by
  intro s s6 h
  cases s with
  | nil => cases h
  | cons c s1 =>
    have h' : (if (c == 'V') = true then
        (chC (fun d => d == 'Å' || d == 'A') s1 fun s2 =>
         chC (· == 'R') s2 fun s3 =>
         starC isPySpace s3 fun s4 =>
         litC energiLit s4 fun s5 =>
         lazyStarC isWordDashSpace s5 fun s6 =>
         chC isPySpace s6 fun s7 =>
         chC isPySpace s7 fun s8 =>
         starC isPySpace s8 fun s9 =>
         chC (fun d => !isPySpace d) s9 fun _ =>
         some s6) else none) = some s6 := h
    split_ifs at h' with hv
    refine ⟨s1, by rw [eq_of_beq hv], ?_⟩
    have hK6 : ∀ (t u : Str),
        (chC isPySpace t fun s7 => chC isPySpace s7 fun s8 =>
         starC isPySpace s8 fun s9 => chC (fun d => !isPySpace d) s9 fun _ =>
         some t) = some u → u.length ≤ t.length := by
      intro t u hu
      obtain ⟨t1, h1⟩ := chC_some_ex hu
      obtain ⟨t2, h2⟩ := chC_some_ex h1
      obtain ⟨t3, h3⟩ := starC_some_ex h2
      obtain ⟨t4, h4⟩ := chC_some_ex h3
      exact le_of_eq (congrArg List.length (Option.some.inj h4)).symm
    have hlen : s6.length ≤ s1.length :=
      chC_len (fun t2 u2 h2 =>
        chC_len (fun t3 u3 h3 =>
          starC_len (fun t4 u4 h4 =>
            litC_len (fun t5 u5 h5 =>
              lazyStarC_len hK6 t5 u5 h5) energiLit t4 u4 h4) t3 u3 h3) t2 u2 h2)
        s1 s6 h'
    exact Nat.lt_succ_of_le hlen

theorem searchCust_g1 : ∀ (s g s6 : Str), searchCust s = some (g, s6) →
    ∃ t, g = 'V' :: t := by
  intro s
  induction s with
  | nil => intro g s6 h; cases h
  | cons c rest ih =>
    intro g s6 h
    unfold searchCust at h
    cases hc : custAt (c :: rest) with
    | some s6' =>
      rw [hc] at h
      obtain ⟨s1, hcons, hlt⟩ := custAt_g1 _ _ hc
      obtain ⟨hcv, -⟩ := List.cons.inj hcons
      have hg : (c :: rest).take ((c :: rest).length - s6'.length) = g :=
        congrArg Prod.fst (Option.some.inj h)
      have hpos : 0 < (c :: rest).length - s6'.length := by omega
      obtain ⟨n, hn⟩ : ∃ n, (c :: rest).length - s6'.length = n + 1 :=
        ⟨_, (Nat.succ_pred_eq_of_pos hpos).symm⟩
      rw [hn, List.take_succ_cons] at hg
      exact ⟨rest.take n, by rw [← hg, hcv]⟩
    | none =>
      rw [hc] at h
      exact ih g s6 h

theorem wellBodyAt_shape : ∀ (s r : Str), wellBodyAt s = some r →
    ∃ s1, s = 'E' :: s1 ∧ r.length < s.length := by
  intro s r h
  unfold wellBodyAt at h
  have h1 : litC ('E' :: ('E' :: ('S' :: ('S' :: ('A' :: []))))) s
      (fun s1 => plusC isWordDash s1 fun s2 =>
        starC isPySpace s2 fun s3 =>
        starC isWordDashSpace s3 fun s4 =>
        plusC isDigitC s4 fun s5 =>
        starC isWordDashSpace s5 fun s6 =>
        optCh 'H' s6 some) = some r := h
  obtain ⟨t1, ht1, h2⟩ := litC_cons_ex h1
  obtain ⟨t2, ht2, h3⟩ := litC_cons_ex h2
  obtain ⟨t3, ht3, h4⟩ := litC_cons_ex h3
  obtain ⟨t4, ht4, h5⟩ := litC_cons_ex h4
  obtain ⟨t5, ht5, h6⟩ := litC_cons_ex h5
  have hsome : ∀ (t u : Str), (some t : Option Str) = some u → u.length ≤ t.length :=
    fun t u hu => le_of_eq (congrArg List.length (Option.some.inj hu)).symm
  have hlen : r.length ≤ t5.length := by
    have h6' : plusC isWordDash t5 (fun s2 =>
        starC isPySpace s2 fun s3 =>
        starC isWordDashSpace s3 fun s4 =>
        plusC isDigitC s4 fun s5 =>
        starC isWordDashSpace s5 fun s6 =>
        optCh 'H' s6 some) = some r := h6
    exact plusC_len (fun a b hb =>
      starC_len (fun a2 b2 hb2 =>
        starC_len (fun a3 b3 hb3 =>
          plusC_len (fun a4 b4 hb4 =>
            starC_len (fun a5 b5 hb5 =>
              optCh_len hsome a5 b5 hb5) a4 b4 hb4) a3 b3 hb3) a2 b2 hb2) a b hb) t5 r h6'
  refine ⟨t1, ht1, ?_⟩
  rw [ht1, ht2, ht3, ht4, ht5]
  simp only [List.length_cons]
  omega

theorem searchWell_g : ∀ (s g : Str), searchWell s = some g → ∃ t, g = 'E' :: t := by
  intro s
  induction s with
  | nil => intro g h; cases h
  | cons c rest ih =>
    intro g h
    unfold searchWell at h
    cases hc : wellBodyAt (c :: rest) with
    | some r =>
      rw [hc] at h
      obtain ⟨s1, hcons, hlt⟩ := wellBodyAt_shape _ _ hc
      obtain ⟨hcv, -⟩ := List.cons.inj hcons
      have hg : (c :: rest).take ((c :: rest).length - r.length) = g := Option.some.inj h
      have hpos : 0 < (c :: rest).length - r.length := by omega
      obtain ⟨n, hn⟩ : ∃ n, (c :: rest).length - r.length = n + 1 :=
        ⟨_, (Nat.succ_pred_eq_of_pos hpos).symm⟩
      rw [hn, List.take_succ_cons] at hg
      exact ⟨rest.take n, by rw [← hg, hcv]⟩
    | none =>
      rw [hc] at h
      exact ih g h

/-! ### Non-emptiness preservation in extract_general_info -/

theorem strip_cons_ne {c : Char} (hc : isPySpace c = false) (t : Str) :
    strip (c :: t) ≠ [] := by
  intro hemp
  unfold strip at hemp
  have h1 : (c :: t).dropWhile isPySpace = c :: t := by
    rw [List.dropWhile_cons, if_neg (by simp [hc])]
  rw [h1] at hemp
  have h2 : (c :: t).reverse.dropWhile isPySpace = [] := by
    have := congrArg List.reverse hemp
    simpa using this
  have hall := List.dropWhile_eq_nil_iff.mp h2
  have hcs : isPySpace c = true := hall c (by simp)
  rw [hc] at hcs
  exact Bool.false_ne_true hcs

theorem collapseWs_cons_nonspace {c : Char} (hc : isPySpace c = false) (t : Str) :
    collapseWs (c :: t) = c :: collapseWsAux false t := by
  have hstep : collapseWsAux false (c :: t)
      = if isPySpace c = true then
          (if (false : Bool) = true then [] else [' ']) ++ collapseWsAux true t
        else c :: collapseWsAux false t := rfl
  rw [show collapseWs (c :: t) = collapseWsAux false (c :: t) from rfl, hstep, hc]
  rfl

theorem subEnergi_ne {s : Str} (h : s ≠ []) : subEnergi s ≠ [] := by
  cases s with
  | nil => exact absurd rfl h
  | cons c t =>
    show subEnergiAux (t.length + 1) (c :: t) ≠ []
    unfold subEnergiAux
    split_ifs with hsw
    · simp [energiSpLit]
    · simp

theorem word_dash_not_space {c : Char} (h : isWordDash c = true) : isPySpace c = false := by
  cases hs : isPySpace c with
  | false => rfl
  | true =>
    exfalso
    unfold isPySpace at hs
    simp only [Bool.or_eq_true, beq_iff_eq] at hs
    have hs' : c = ' ' ∨ c = '\t' ∨ c = '\n' ∨ c = '\x0b' ∨ c = '\x0c' ∨ c = '\r' := by
      tauto
    rcases hs' with rfl | rfl | rfl | rfl | rfl | rfl <;> exact absurd h (by decide)

theorem cleanWellAt_shape : ∀ (w rest : Str), cleanWellAt w = some rest →
    ∃ c w1, w = c :: w1 ∧ isPySpace c = false ∧ rest.length ≤ w1.length := by
  intro w rest h
  unfold cleanWellAt plusC at h
  cases w with
  | nil => cases h
  | cons c w1 =>
    have h' : (if isWordDash c = true then
        starC isWordDash w1 (fun s1 => cleanIterStar s1.length s1 fun s2 => optSpH s2 some)
        else none) = some rest := h
    split_ifs at h' with hc
    refine ⟨c, w1, rfl, word_dash_not_space hc, ?_⟩
    have hsome : ∀ (t u : Str), (some t : Option Str) = some u → u.length ≤ t.length :=
      fun t u hu => le_of_eq (congrArg List.length (Option.some.inj hu)).symm
    exact starC_len (fun t u hu =>
      cleanIterStar_len (fun t2 u2 hu2 => optSpH_len hsome t2 u2 hu2) t.length t u hu)
      w1 rest h'

theorem cleanWell_strip_ne {w g : Str} (h : cleanWell w = some g) : strip g ≠ [] := by
  unfold cleanWell at h
  cases hca : cleanWellAt w with
  | none => rw [hca] at h; cases h
  | some rest =>
    rw [hca] at h
    obtain ⟨c, w1, rfl, hcn, hlen⟩ := cleanWellAt_shape _ _ hca
    have hg : (c :: w1).take ((c :: w1).length - rest.length) = g := Option.some.inj h
    have hpos : 0 < (c :: w1).length - rest.length := by
      simp only [List.length_cons]
      omega
    obtain ⟨n, hn⟩ : ∃ n, (c :: w1).length - rest.length = n + 1 :=
      ⟨_, (Nat.succ_pred_eq_of_pos hpos).symm⟩
    rw [hn, List.take_succ_cons] at hg
    rw [← hg]
    exact strip_cons_ne hcn _

/-! ### Step lemmas for the Sales Order branch -/

theorem decide_eq_isEmpty (l : Str) : decide (l = []) = l.isEmpty := by
  cases l <;> simp

theorem inspect_next_cons_skip (x : Str) (rest : List Str) (info : GenInfo)
    (hcond : (decide (strip x = []) || hasSubstr shippingLit (strip x)) = true) :
    inspect_next (x :: rest) info = inspect_next rest info := by
  have h0 : inspect_next (x :: rest) info
      = if (decide (strip x = []) || hasSubstr shippingLit (strip x)) = true
        then inspect_next rest info
        else match searchCust (strip x) with
          | none => info
          | some (g1, s6) =>
            match searchWell (strip s6) with
            | none => { info with customer := strip (collapseWs g1) }
            | some gw =>
              { info with customer := strip (collapseWs g1), well_name := strip gw } := rfl
  rw [h0, if_pos hcond]

theorem inspect_next_cons_nocust (x : Str) (rest : List Str) (info : GenInfo)
    (hcond : (decide (strip x = []) || hasSubstr shippingLit (strip x)) = false)
    (hsc : searchCust (strip x) = none) :
    inspect_next (x :: rest) info = info := by
  have h0 : inspect_next (x :: rest) info
      = if (decide (strip x = []) || hasSubstr shippingLit (strip x)) = true
        then inspect_next rest info
        else match searchCust (strip x) with
          | none => info
          | some (g1, s6) =>
            match searchWell (strip s6) with
            | none => { info with customer := strip (collapseWs g1) }
            | some gw =>
              { info with customer := strip (collapseWs g1), well_name := strip gw } := rfl
  rw [h0, if_neg (by rw [hcond]; exact Bool.false_ne_true), hsc]

theorem inspect_next_cons_nowell (x : Str) (rest : List Str) (info : GenInfo)
    {g s6 : Str}
    (hcond : (decide (strip x = []) || hasSubstr shippingLit (strip x)) = false)
    (hsc : searchCust (strip x) = some (g, s6))
    (hsw : searchWell (strip s6) = none) :
    inspect_next (x :: rest) info = { info with customer := strip (collapseWs g) } := by
  have h0 : inspect_next (x :: rest) info
      = if (decide (strip x = []) || hasSubstr shippingLit (strip x)) = true
        then inspect_next rest info
        else match searchCust (strip x) with
          | none => info
          | some (g1, s6) =>
            match searchWell (strip s6) with
            | none => { info with customer := strip (collapseWs g1) }
            | some gw =>
              { info with customer := strip (collapseWs g1), well_name := strip gw } := rfl
  rw [h0, if_neg (by rw [hcond]; exact Bool.false_ne_true), hsc]
  show (match searchWell (strip s6) with
    | none => { info with customer := strip (collapseWs g) }
    | some gw =>
      { info with customer := strip (collapseWs g), well_name := strip gw }) = _
  rw [hsw]

theorem inspect_next_cons_hit (x : Str) (rest : List Str) (info : GenInfo)
    {g s6 gw : Str}
    (hcond : (decide (strip x = []) || hasSubstr shippingLit (strip x)) = false)
    (hsc : searchCust (strip x) = some (g, s6))
    (hsw : searchWell (strip s6) = some gw) :
    inspect_next (x :: rest) info
      = { info with customer := strip (collapseWs g), well_name := strip gw } := by
  have h0 : inspect_next (x :: rest) info
      = if (decide (strip x = []) || hasSubstr shippingLit (strip x)) = true
        then inspect_next rest info
        else match searchCust (strip x) with
          | none => info
          | some (g1, s6) =>
            match searchWell (strip s6) with
            | none => { info with customer := strip (collapseWs g1) }
            | some gw =>
              { info with customer := strip (collapseWs g1), well_name := strip gw } := rfl
  rw [h0, if_neg (by rw [hcond]; exact Bool.false_ne_true), hsc]
  show (match searchWell (strip s6) with
    | none => { info with customer := strip (collapseWs g) }
    | some gw =>
      { info with customer := strip (collapseWs g), well_name := strip gw }) = _
  rw [hsw]

theorem inspect_next_preserve :
    ∀ (cand : List Str) (info : GenInfo), both_ne info → both_ne (inspect_next cand info) := by
  intro cand
  induction cand with
  | nil => intro info h; exact h
  | cons x rest ih =>
    intro info h
    cases hcb : (decide (strip x = []) || hasSubstr shippingLit (strip x)) with
    | true =>
      rw [inspect_next_cons_skip _ _ _ hcb]
      exact ih info h
    | false =>
      cases hsc : searchCust (strip x) with
      | none =>
        rw [inspect_next_cons_nocust _ _ _ hcb hsc]
        exact h
      | some gp =>
        obtain ⟨g, s6⟩ := gp
        obtain ⟨t, hgt⟩ := searchCust_g1 _ _ _ hsc
        have hcust : strip (collapseWs g) ≠ [] := by
          rw [hgt, collapseWs_cons_nonspace (by decide)]
          exact strip_cons_ne (by decide) _
        cases hsw : searchWell (strip s6) with
        | none =>
          rw [inspect_next_cons_nowell _ _ _ hcb hsc hsw]
          exact ⟨hcust, h.2⟩
        | some gw =>
          obtain ⟨tw, hgw⟩ := searchWell_g _ _ hsw
          rw [inspect_next_cons_hit _ _ _ hcb hsc hsw]
          refine ⟨hcust, ?_⟩
          show strip gw ≠ []
          rw [hgw]
          exact strip_cons_ne (by decide) _

theorem inspect_next_establish :
    ∀ (cand : List Str) (info : GenInfo) (l : Str),
      first_candidate cand = some l → cust_well_hit l = true →
      both_ne (inspect_next cand info) := by
  intro cand
  induction cand with
  | nil => intro info l h hhit; cases h
  | cons x rest ih =>
    intro info l h hhit
    cases hkeep : candidate_keep x with
    | false =>
      have h' : first_candidate rest = some l := by
        unfold first_candidate at h
        rwa [List.find?_cons_of_neg rest (by rw [hkeep]; exact Bool.false_ne_true)] at h
      have hcond : (decide (strip x = []) || hasSubstr shippingLit (strip x)) = true := by
        have h1 : ((strip x).isEmpty || hasSubstr shippingLit (strip x)) = true := by
          cases hb : ((strip x).isEmpty || hasSubstr shippingLit (strip x)) with
          | true => rfl
          | false =>
            exfalso
            unfold candidate_keep at hkeep
            rw [hb] at hkeep
            exact absurd hkeep (by decide)
        rw [decide_eq_isEmpty]
        exact h1
      rw [inspect_next_cons_skip _ _ _ hcond]
      exact ih info l h' hhit
    | true =>
      have hl : x = l := by
        unfold first_candidate at h
        rw [List.find?_cons_of_pos rest hkeep] at h
        exact Option.some.inj h
      subst hl
      have hcond : (decide (strip x = []) || hasSubstr shippingLit (strip x)) = false := by
        have h1 : ((strip x).isEmpty || hasSubstr shippingLit (strip x)) = false := by
          cases hb : ((strip x).isEmpty || hasSubstr shippingLit (strip x)) with
          | false => rfl
          | true =>
            exfalso
            unfold candidate_keep at hkeep
            rw [hb] at hkeep
            exact absurd hkeep (by decide)
        rw [decide_eq_isEmpty]
        exact h1
      unfold cust_well_hit at hhit
      cases hsc : searchCust (strip x) with
      | none =>
        rw [hsc] at hhit
        exact absurd (show (false : Bool) = true from hhit) (by decide)
      | some gp =>
        obtain ⟨g, s6⟩ := gp
        rw [hsc] at hhit
        have hwell : (searchWell (strip s6)).isSome = true := hhit
        cases hsw : searchWell (strip s6) with
        | none =>
          rw [hsw] at hwell
          exact absurd hwell (by decide)
        | some gw =>
          obtain ⟨t, hgt⟩ := searchCust_g1 _ _ _ hsc
          obtain ⟨tw, hgw⟩ := searchWell_g _ _ hsw
          rw [inspect_next_cons_hit _ _ _ hcond hsc hsw]
          constructor
          · show strip (collapseWs g) ≠ []
            rw [hgt, collapseWs_cons_nonspace (by decide)]
            exact strip_cons_ne (by decide) _
          · show strip gw ≠ []
            rw [hgw]
            exact strip_cons_ne (by decide) _

theorem info_loop_cons (lines : List Str) (i : Nat) (x : Str) (rest : List Str)
    (info : GenInfo) :
    info_loop lines i (x :: rest) info
      = info_loop lines (i + 1) rest
          (let info1 := if hasSubstr salesLit (strip x) = true
              then inspect_next ((lines.drop (i + 1)).take 2) info else info
           if hasSubstr loadOutDateLit (strip x) = true
              then { info1 with
                      load_out_date :=
                        date_scan ((lines.drop (i + 1)).take 2) info1.load_out_date }
              else info1) := rfl

theorem info_loop_preserve :
    ∀ (sfx lines : List Str) (i : Nat) (info : GenInfo),
      both_ne info → both_ne (info_loop lines i sfx info) := by
  intro sfx
  induction sfx with
  | nil => intro lines i info h; exact h
  | cons x rest ih =>
    intro lines i info h
    rw [info_loop_cons]
    apply ih
    have h1 : both_ne (if hasSubstr salesLit (strip x) = true
        then inspect_next ((lines.drop (i + 1)).take 2) info else info) := by
      split_ifs with hsales
      · exact inspect_next_preserve _ info h
      · exact h
    generalize hI : (if hasSubstr salesLit (strip x) = true
        then inspect_next ((lines.drop (i + 1)).take 2) info else info) = info1 at h1 ⊢
    show both_ne (if hasSubstr loadOutDateLit (strip x) = true
        then { info1 with
                load_out_date := date_scan ((lines.drop (i + 1)).take 2) info1.load_out_date }
        else info1)
    split_ifs with hdate
    · exact ⟨h1.1, h1.2⟩
    · exact h1

theorem info_loop_hit :
    ∀ (sfx lines : List Str) (i k : Nat) (info : GenInfo) (line l : Str),
      sfx.get? k = some line →
      hasSubstr salesLit (strip line) = true →
      first_candidate ((lines.drop (i + k + 1)).take 2) = some l →
      cust_well_hit l = true →
      both_ne (info_loop lines i sfx info) := by
  intro sfx
  induction sfx with
  | nil => intro lines i k info line l hget; cases hget
  | cons x rest ih =>
    intro lines i k info line l hget hphrase hfirst hhit
    cases k with
    | zero =>
      have hx : x = line := Option.some.inj hget
      subst hx
      rw [info_loop_cons]
      apply info_loop_preserve
      have hestab : both_ne (inspect_next ((lines.drop (i + 1)).take 2) info) :=
        inspect_next_establish _ info l (by simpa using hfirst) hhit
      have h1 : both_ne (if hasSubstr salesLit (strip x) = true
          then inspect_next ((lines.drop (i + 1)).take 2) info else info) := by
        rw [if_pos hphrase]
        exact hestab
      generalize hI : (if hasSubstr salesLit (strip x) = true
          then inspect_next ((lines.drop (i + 1)).take 2) info else info) = info1 at h1 ⊢
      show both_ne (if hasSubstr loadOutDateLit (strip x) = true
          then { info1 with
                  load_out_date := date_scan ((lines.drop (i + 1)).take 2) info1.load_out_date }
          else info1)
      split_ifs with hdate
      · exact ⟨h1.1, h1.2⟩
      · exact h1
    | succ k' =>
      have hget' : rest.get? k' = some line := hget
      rw [info_loop_cons]
      exact ih lines (i + 1) k' _ line l hget' hphrase
        (by have : i + 1 + k' + 1 = i + (k' + 1) + 1 := by omega
            rw [this]
            exact hfirst) hhit

theorem extract_general_info_post (page : Page) (info0 : GenInfo)
    (hI : info_loop (splitOnNl page.page_layout_text) 0 (splitOnNl page.page_layout_text)
        { customer := [], well_name := [], load_out_date := [] } = info0)
    (hc : info0.customer ≠ []) (hw : info0.well_name ≠ []) :
    extract_general_info page
      = match cleanWell info0.well_name with
        | some g =>
          { info0 with customer := subEnergi info0.customer, well_name := strip g }
        | none => { info0 with customer := subEnergi info0.customer } := by
  unfold extract_general_info
  simp only []
  rw [hI]
  rw [if_neg hc]
  rw [if_pos hc]
  rw [if_neg (show ¬(({ info0 with customer := subEnergi info0.customer } : GenInfo).well_name
      = []) from hw)]
  rw [if_pos (show (({ info0 with customer := subEnergi info0.customer } : GenInfo).well_name
      ≠ []) from hw)]

/-- C7 counterexample: the claim fails as stated.  In this layout text
the Sales Order header line is followed by a non-empty, non-Shipping
line that does not match the customer regex, and then (still within the
2 inspected lines) by a line that does match the customer and well
patterns; the break after the first inspected line prevents the second
from ever being examined, and with no recoverable raw-text fallback
both metadata fields come back empty. -/
theorem C7_counterexample :
    hasSubstr salesLit (strip ((splitOnNl c7CxPage.page_layout_text).getD 0 [])) = true
    ∧ candidate_keep ((splitOnNl c7CxPage.page_layout_text).getD 1 []) = true
    ∧ cust_well_hit ((splitOnNl c7CxPage.page_layout_text).getD 1 []) = false
    ∧ cust_well_hit ((splitOnNl c7CxPage.page_layout_text).getD 2 []) = true
    ∧ (extract_general_info c7CxPage).customer = []
    ∧ (extract_general_info c7CxPage).well_name = [] := by
  decide

/-- C7 (amended): for every layout text containing a line with the
Sales Order/Planning Order Number phrase such that the first of the
following 2 lines that is non-empty and free of Shipping matches the
customer regex, with the well pattern matching the remainder after the
customer group, extract_general_info returns both customer and
well_name non-empty. -/
theorem C7_metadata_recovery_amended (page : Page) (i : Nat) (line l : Str)
    (hline : (splitOnNl page.page_layout_text).get? i = some line)
    (hphrase : hasSubstr salesLit (strip line) = true)
    (hfirst : first_candidate (((splitOnNl page.page_layout_text).drop (i + 1)).take 2)
        = some l)
    (hhit : cust_well_hit l = true) :
    (extract_general_info page).customer ≠ [] ∧ (extract_general_info page).well_name ≠ [] := by
  have hloop := info_loop_hit (splitOnNl page.page_layout_text)
    (splitOnNl page.page_layout_text) 0 i
    { customer := [], well_name := [], load_out_date := [] } line l hline hphrase
    (by simpa using hfirst) hhit
  obtain ⟨hc, hw⟩ := hloop
  have hpost := extract_general_info_post page
    (info_loop (splitOnNl page.page_layout_text) 0 (splitOnNl page.page_layout_text)
      { customer := [], well_name := [], load_out_date := [] }) rfl hc hw
  rw [hpost]
  cases hcw : cleanWell ((info_loop (splitOnNl page.page_layout_text) 0
      (splitOnNl page.page_layout_text)
      { customer := [], well_name := [], load_out_date := [] }).well_name) with
  | some g => exact ⟨subEnergi_ne hc, cleanWell_strip_ne hcw⟩
  | none => exact ⟨subEnergi_ne hc, hw⟩

/-- Witness for the amended C7: a layout text whose first inspected
line after the header matches both patterns yields non-empty customer
and well name. -/
theorem C7_witness :
    (extract_general_info c7OkPage).customer ≠ []
    ∧ (extract_general_info c7OkPage).well_name ≠ [] := by
  exact C7_metadata_recovery_amended c7OkPage 0
    ("Sales Order/Planning Order Number".data) ("VAR ENERGI  EESSA_1".data)
    (by decide) (by decide) (by decide) (by decide)
